import Mathlib

/-!
Verification of the Apple-Notes-to-MDX exporter (python sources under
src/exporter/src/).  Python strings are modelled as Lean `String`/`List Char`
(operations are implemented on `List Char` and wrapped), byte buffers as
`List Nat`.  Notes on fidelity:
* `str.strip()` is modelled over the six ASCII whitespace characters
  (space, \t, \n, \r, \x0b, \x0c); the Unicode whitespace cases of Python
  are not modelled (all concrete inputs below are ASCII).
* `unicodedata.normalize('NFKD', t).encode('ascii','ignore')` is modelled as
  dropping the non-ASCII code points; the NFKD decomposition itself is not
  modelled, which is exact for ASCII inputs.
* `str.lower()` is `Char.toLower` (ASCII case mapping), matching Python on
  ASCII text.
-/

/-- Named character constants, used where a literal would be awkward. -/
def apoChar : Char := Char.ofNat 39

def quoteChar : Char := Char.ofNat 34

def backtickChar : Char := Char.ofNat 96

def lbraceChar : Char := Char.ofNat 123

def rbraceChar : Char := Char.ofNat 125

/-- Python whitespace test for `str.strip()` / the regex class \s
(ASCII part: space, tab, newline, carriage return, vertical tab, form feed). -/
def pyIsSpace (c : Char) : Bool :=
  c == ' ' || c == '\t' || c == '\n' || c == '\r' ||
  c == Char.ofNat 11 || c == Char.ofNat 12

/-- Remove the characters satisfying p from the front and the back of a list
(Python str.strip with a character class). -/
def pyStripWith (p : Char → Bool) (l : List Char) : List Char :=
  ((l.dropWhile p).reverse.dropWhile p).reverse

/-- Python `s.strip()` on the underlying character list. -/
def pyStripL (l : List Char) : List Char := pyStripWith pyIsSpace l

/-- Python `s.strip()`. -/
def pyStrip (s : String) : String := String.mk (pyStripL s.data)

/-- Python `s.lower()` on a character list (ASCII case mapping). -/
def pyLowerL (l : List Char) : List Char := l.map Char.toLower

/-- Replacement of every maximal run of characters satisfying p by the single
character r, carrying a flag telling whether we are inside such a run.
This implements `re.sub(r'[class]+', repl, text)` for a one-character
replacement. -/
def squashRunsAux (p : Char → Bool) (r : Char) : Bool → List Char → List Char
  | _, [] => []
  | inRun, c :: cs =>
    if p c then
      if inRun then squashRunsAux p r true cs
      else r :: squashRunsAux p r true cs
    else c :: squashRunsAux p r false cs

/-- Replace every maximal nonempty run of characters satisfying p by r. -/
def squashRuns (p : Char → Bool) (r : Char) (l : List Char) : List Char :=
  squashRunsAux p r false l

/-- Membership test for the separator class of filename_utils.to_kebab_case:
the regex class in the substitution
re.sub(r'[_\s\./\\:;,&+()[\]{}!@#$%^*=|"\x27 backtick ~<>?]+', '-', text)
(underscore, the six whitespace characters and the listed punctuation). -/
def sepChars : List Char :=
  ['_', ' ', '\t', '\n', '\r', Char.ofNat 11, Char.ofNat 12,
   '.', '/', '\\', ':', ';', ',', '&', '+', '(', ')', '[', ']',
   lbraceChar, rbraceChar, '!', '@', '#', '$', '%', '^', '*', '=', '|',
   quoteChar, apoChar, backtickChar, '~', '<', '>', '?']

def isSepChar (c : Char) : Bool := sepChars.contains c

/-- Characters allowed by the filter re.sub(r'[^a-z0-9-]+', '', text):
lowercase ASCII letters, digits, hyphen. -/
def isKebabChar (c : Char) : Bool :=
  ('a' ≤ c && c ≤ 'z') || ('0' ≤ c && c ≤ '9') || c == '-'

/-- Index of the last hyphen of a list (Python truncated.rfind('-')),
-1 when there is none. -/
def rfindHyphen (l : List Char) : Int :=
  match l.reverse.findIdx? (fun c => c == '-') with
  | some j => ((l.length - 1 - j : Nat) : Int)
  | none => -1

/-- Steps 2-7 of to_kebab_case (everything between the early return and the
truncation): ASCII projection, lowercase, separator runs to hyphens, drop
the remaining non-kebab characters, collapse hyphen runs, strip hyphens. -/
def kebabCoreL (l : List Char) : List Char :=
  pyStripWith (fun c => c == '-')
    (squashRuns (fun c => c == '-') '-'
      ((squashRuns isSepChar '-'
        (pyLowerL (l.filter (fun c => c.toNat < 128)))).filter isKebabChar))

/-- Hyphen-boundary cut of the truncation step: the first max_length
characters, further cut at the last hyphen when that hyphen lies after
max_length * 2 // 3. -/
def truncCut (l : List Char) (maxLength : Nat) : List Char :=
  if rfindHyphen (l.take maxLength) > ((maxLength * 2 / 3 : Nat) : Int) then
    (l.take maxLength).take (rfindHyphen (l.take maxLength)).toNat
  else l.take maxLength

/-- Truncation step of to_kebab_case: when the text exceeds max_length, cut at
max_length preferring a hyphen boundary in the last third of the window, and
strip trailing hyphens from the cut. -/
def truncStepL (l : List Char) (maxLength : Nat) : List Char :=
  if l.length > maxLength then
    ((truncCut l maxLength).reverse.dropWhile (fun c => c == '-')).reverse
  else l

/-- filename_utils.to_kebab_case: kebab-case normalisation of a title for
filesystem-safe filenames. -/
def to_kebab_case (text : String) (maxLength : Nat) : String :=
  if pyStripL text.data = [] then "untitled"
  else
    String.mk (truncStepL
      (if kebabCoreL text.data = [] then ("untitled" : String).data
       else kebabCoreL text.data) maxLength)

/-- Python f-string {index:03d}: decimal digits zero-padded to width 3. -/
def pad3 (n : Nat) : String :=
  let s := toString n
  String.mk (List.replicate (3 - s.length) '0') ++ s

/-- filename_utils.generate_image_filename: kebab-case image filename with a
zero-padded index part and an extension part, reserving their space before
truncating the base. -/
def generate_image_filename (noteName : String) (index : Nat) (extension : String)
    (maxLength : Nat) : String :=
  let indexPart := "-" ++ pad3 index
  let extensionPart := "." ++ extension
  let available : Int := (maxLength : Int) - (indexPart.length : Int) - (extensionPart.length : Int)
  let available : Int := if available < 5 then 5 else available
  let baseName := to_kebab_case noteName available.toNat
  baseName ++ indexPart ++ extensionPart

/-! Image processor (src/exporter/src/image_processor.py).  Byte buffers are
modelled as `List Nat` (one entry per byte); the filesystem write of
_fallback_save is modelled by returning the written bytes. -/

/-- ASCII bytes of a string, for byte-pattern literals. -/
def asciiBytes (s : String) : List Nat := s.data.map Char.toNat

/-- Python `needle in hay` on bytes: contiguous subsequence test. -/
def containsSeq (needle : List Nat) : List Nat → Bool
  | [] => needle.isEmpty
  | hay@(_ :: rest) => needle.isPrefixOf hay || containsSeq needle rest

/-- HEIC/HEIF brand patterns searched for inside the first 32 bytes
(ImageProcessor._detect_heic_format). -/
def heicPatterns : List (List Nat) :=
  [asciiBytes "ftypheic", asciiBytes "ftypheif", asciiBytes "ftypmif1",
   asciiBytes "ftypheix", asciiBytes "ftyphvcC", asciiBytes "ftyphevc",
   asciiBytes "ftypmif2"]

/-- ImageProcessor._detect_heic_format: examine the first 32 bytes for an
ftyp box with a HEIC/HEIF brand; buffers shorter than 32 bytes are never
detected. -/
def detect_heic_format (imageData : List Nat) : Bool :=
  if imageData.length < 32 then false
  else
    let header := imageData.take 32
    heicPatterns.any (fun p => containsSeq p header) ||
    ((header.drop 4).take 4 == asciiBytes "ftyp" &&
      (containsSeq (asciiBytes "hei") ((header.drop 8).take 12) ||
       containsSeq (asciiBytes "mif") ((header.drop 8).take 12)))

/-- ImageProcessor._detect_image_format: magic-byte format detection; buffers
shorter than 16 bytes yield None. -/
def detect_image_format (imageData : List Nat) : Option String :=
  if imageData.length < 16 then none
  else
    let header := imageData.take 16
    if (List.isPrefixOf [0xff, 0xd8, 0xff] header) then some "jpg"
    else if (List.isPrefixOf [0x89, 0x50, 0x4e, 0x47, 0x0d, 0x0a, 0x1a, 0x0a] header) then some "png"
    else if (List.isPrefixOf (asciiBytes "GIF8") header) then some "gif"
    else if (List.isPrefixOf (asciiBytes "RIFF") header &&
             containsSeq (asciiBytes "WEBP") ((imageData.drop 8).take 8)) then some "webp"
    else if (List.isPrefixOf (asciiBytes "BM") header) then some "bmp"
    else if (List.isPrefixOf [0x49, 0x49, 0x2a, 0x00] header) then some "tiff"
    else if (List.isPrefixOf [0x4d, 0x4d, 0x00, 0x2a] header) then some "tiff"
    else if (List.isPrefixOf [0x00, 0x00, 0x01, 0x00] header) then some "ico"
    else if detect_heic_format imageData then some "heic"
    else none

/-- The MIME/format value used by ImageProcessor._extract_base64_image after
the detection step: the declared data-URI type is lowercased, then the
detected format overrides it when detection succeeds. -/
def extract_base64_mime (declaredMime : String) (imageData : List Nat) : String :=
  let mimeType := String.mk (pyLowerL declaredMime.data)
  match detect_image_format imageData with
  | some detected => detected
  | none => mimeType

/-- The output filename computed by ImageProcessor._extract_base64_image for
one base64 image: generate_image_filename(note_name, index, mime_type) with
the post-detection mime value; the path joined onto the shared attachments
directory.  Note the call site uses the module-level generate_image_filename
(no collision check against existing files). -/
def extract_base64_filename (noteName : String) (index : Nat)
    (declaredMime : String) (imageData : List Nat) : String :=
  generate_image_filename noteName index (extract_base64_mime declaredMime imageData) 50

/-- ImageProcessor._fallback_save: refuse to write raw HEIC data (returns
None); otherwise write the raw bytes and return the path.  The file write is
modelled by returning the written bytes. -/
def fallback_save (imageData : List Nat) : Option (List Nat) :=
  if detect_heic_format imageData then none
  else some imageData

/-! Batch orchestrator (src/exporter/src/notes_exporter.py).  A note record is
the dictionary handed over by the AppleScript bridge; absent keys are
Options.  The effectful body of _process_single_note (image extraction,
conversion, file write) is abstracted as an outcome function
`proc : Note → Except String Unit`; a raised document-level exception is the
`.error` case carrying str(e).  The wall-clock timestamp stored in each
error record is not modelled. -/

structure Note where
  noteID : Option String
  noteName : Option String
  noteBody : Option String
  noteFolder : Option String

/-- Accumulated exporter state: the counters of NotesExporter and the error
records list (note_id, note_name, error text). -/
structure ExportState where
  notesProcessed : Nat
  notesSkipped : Nat
  exportedCount : Nat
  errors : List (String × String × String)

/-- NotesExporter._should_include_note: empty or whitespace-only bodies are
excluded unless include_empty_notes is set. -/
def should_include_note (includeEmpty : Bool) (note : Note) : Bool :=
  let noteBody := note.noteBody.getD ""
  if !includeEmpty && (noteBody = "" || pyStripL noteBody.data = []) then false
  else true

/-- One iteration of the NotesExporter._process_notes loop body: skip check,
then the document pipeline; an exception from the pipeline is caught and
recorded with the note's id, display name and error text. -/
def processNoteStep (proc : Note → Except String Unit) (includeEmpty : Bool)
    (st : ExportState) (note : Note) : ExportState :=
  if !(should_include_note includeEmpty note) then
    { st with notesSkipped := st.notesSkipped + 1 }
  else
    match proc note with
    | .ok _ =>
      { st with notesProcessed := st.notesProcessed + 1,
                exportedCount := st.exportedCount + 1 }
    | .error e =>
      { st with errors :=
          st.errors ++ [(note.noteID.getD "unknown", note.noteName.getD "Unknown", e)] }

/-- NotesExporter._process_notes: fold the loop body over the whole record
list; per-record exceptions are caught inside the loop, so the fold always
reaches the end of the list. -/
def process_notes (proc : Note → Except String Unit) (includeEmpty : Bool)
    (notes : List Note) (st : ExportState) : ExportState :=
  notes.foldl (processNoteStep proc includeEmpty) st

/-- The error entries contributed by a record list: one entry per included
record whose processing fails, in list order. -/
def errorEntries (proc : Note → Except String Unit) (includeEmpty : Bool)
    (notes : List Note) : List (String × String × String) :=
  notes.filterMap (fun note =>
    if should_include_note includeEmpty note then
      match proc note with
      | .ok _ => none
      | .error e => some (note.noteID.getD "unknown", note.noteName.getD "Unknown", e)
    else none)

/-- Number of included records whose processing succeeds. -/
def okCount (proc : Note → Except String Unit) (includeEmpty : Bool)
    (notes : List Note) : Nat :=
  notes.countP (fun note =>
    should_include_note includeEmpty note &&
      (match proc note with | .ok _ => true | .error _ => false))

/-! Frontmatter generator (src/exporter/src/frontmatter_generator.py).
Python dictionaries are modelled as records with Option fields for the keys
that may be absent; `datetime.now().strftime('%Y-%m-%d')` is passed in as
the parameter nowDate; the configured author name is a parameter. -/

/-- Python `needle in hay` on strings: contiguous subsequence test. -/
def containsChars (needle : List Char) : List Char → Bool
  | [] => needle.isEmpty
  | hay@(_ :: rest) => needle.isPrefixOf hay || containsChars needle rest

/-- Regex \w on ASCII text: letters, digits, underscore. -/
def isWordChar (c : Char) : Bool := c.isAlphanum || c == '_'

/-- SmartFrontmatterGenerator._generate_slug: lowercase, drop characters
outside [\w\s-], turn runs of hyphens/whitespace into single hyphens, strip
hyphens, cut over-long slugs before the last hyphen of the first 50
characters, default to the sentinel when empty. -/
def generate_slug (title : String) : String :=
  let slug := pyLowerL title.data
  let slug := slug.filter (fun c => isWordChar c || pyIsSpace c || c == '-')
  let slug := squashRuns (fun c => c == '-' || pyIsSpace c) '-' slug
  let slug := pyStripWith (fun c => c == '-') slug
  let slug :=
    if slug.length > 50 then
      let cut := slug.take 50
      match rfindHyphen cut with
      | .ofNat _ => cut.take (rfindHyphen cut).toNat
      | .negSucc _ => cut
    else slug
  if slug = [] then "untitled" else String.mk slug

/-- Folder-name to category keyword map of
SmartFrontmatterGenerator._folder_to_category, in source order. -/
def categoryMap : List (String × String) :=
  [("work", "Business"), ("personal", "Personal"), ("recipes", "Food"),
   ("travel", "Travel"), ("tech", "Technology"), ("health", "Health"),
   ("fitness", "Health"), ("education", "Education"), ("learning", "Education"),
   ("projects", "Projects"), ("ideas", "Ideas"), ("journal", "Personal"),
   ("diary", "Personal"), ("meetings", "Business"), ("research", "Research")]

/-- SmartFrontmatterGenerator._folder_to_category: first keyword occurring as
a substring of the lowercased folder name wins; default "Personal". -/
def folder_to_category (folder : String) : String :=
  let folderLower := pyLowerL folder.data
  match categoryMap.find? (fun kv => containsChars kv.1.data folderLower) with
  | some kv => kv.2
  | none => "Personal"

/-- All matches of re.findall(r'#(\w+)', content): scan for a hash followed
by a nonempty word-character run, capture the run, continue after it. -/
def findHashtags : List Char → List (List Char)
  | [] => []
  | c :: cs =>
    if c == '#' then
      let run := cs.takeWhile isWordChar
      if run = [] then findHashtags cs
      else run :: findHashtags (cs.drop run.length)
    else findHashtags cs
termination_by l => l.length
decreasing_by
  · simp
  · simp [List.length_drop]; omega
  · simp

/-- Keyword to tag-set dictionary of
SmartFrontmatterGenerator._extract_basic_tags, in source order. -/
def tagKeywords : List (String × List String) :=
  [("recipe", ["cooking", "food"]), ("meeting", ["business", "work"]),
   ("workout", ["fitness", "health"]), ("travel", ["travel", "vacation"]),
   ("code", ["programming", "development"]), ("design", ["design", "ui"]),
   ("book", ["reading", "books"]), ("movie", ["movies", "entertainment"]),
   ("music", ["music", "audio"]), ("photo", ["photography", "images"]),
   ("video", ["video", "media"]), ("project", ["projects", "work"]),
   ("idea", ["ideas", "brainstorming"]), ("todo", ["tasks", "productivity"]),
   ("list", ["lists", "organization"])]

/-- SmartFrontmatterGenerator._extract_basic_tags: first five hashtags
(lowercased) plus the tag sets of every keyword found in the lowercased
content or title, deduplicated keeping first occurrences, capped at eight,
defaulting to ["notes"]. -/
def extract_basic_tags (content title : String) : List String :=
  let hashtags := findHashtags content.data
  let tags := (hashtags.take 5).map (fun t => String.mk (pyLowerL t))
  let contentLower := pyLowerL content.data
  let titleLower := pyLowerL title.data
  let tags := tagKeywords.foldl
    (fun acc kv =>
      if containsChars kv.1.data contentLower || containsChars kv.1.data titleLower
      then acc ++ kv.2 else acc) tags
  let uniqueTags := tags.eraseDups.take 8
  if uniqueTags = [] then ["notes"] else uniqueTags

/-- Left-to-right regex substitution scheme of `re.sub`: a matcher tries the
pattern at the current position and returns the replacement together with
the number of matched characters beyond the first; on failure the scan
advances one character. -/
def pySub (m : List Char → Option (List Char × Nat)) : List Char → List Char
  | [] => []
  | c :: cs =>
    match m (c :: cs) with
    | some (repl, extra) => repl ++ pySub m (cs.drop extra)
    | none => c :: pySub m cs
termination_by l => l.length
decreasing_by
  · simp [List.length_drop]; omega
  · simp

/-- Matcher for re.sub(r'#+ ', '', _): a maximal run of hashes followed by a
space, removed. -/
def mHeader (l : List Char) : Option (List Char × Nat) :=
  let run := l.takeWhile (fun c => c == '#')
  if run = [] then none
  else
    match l.drop run.length with
    | ' ' :: _ => some ([], run.length)
    | _ => none

/-- Matcher for re.sub(r'\*\*([^*]+)\*\*', r'\1', _): bold markers removed. -/
def mBold : List Char → Option (List Char × Nat)
  | '*' :: '*' :: rest =>
    let t := rest.takeWhile (fun c => c != '*')
    if t = [] then none
    else
      match rest.drop t.length with
      | '*' :: '*' :: _ => some (t, t.length + 3)
      | _ => none
  | _ => none

/-- Matcher for re.sub(r'\*([^*]+)\*', r'\1', _): italic markers removed. -/
def mItalic : List Char → Option (List Char × Nat)
  | '*' :: rest =>
    let t := rest.takeWhile (fun c => c != '*')
    if t = [] then none
    else
      match rest.drop t.length with
      | '*' :: _ => some (t, t.length + 1)
      | _ => none
  | _ => none

/-- Matcher for re.sub(r'\[([^\]]+)\]\(([^)]+)\)', r'\1', _): links replaced
by their text. -/
def mLink : List Char → Option (List Char × Nat)
  | '[' :: rest =>
    let t := rest.takeWhile (fun c => c != ']')
    if t = [] then none
    else
      match rest.drop t.length with
      | ']' :: '(' :: rest2 =>
        let u := rest2.takeWhile (fun c => c != ')')
        if u = [] then none
        else
          match rest2.drop u.length with
          | ')' :: _ => some (t, t.length + u.length + 3)
          | _ => none
      | _ => none
  | _ => none

/-- Matcher for re.sub(r'!\[([^\]]*)\]\(([^)]+)\)', '', _): image markup
removed (the alt part may be empty). -/
def mImage : List Char → Option (List Char × Nat)
  | '!' :: '[' :: rest =>
    let t := rest.takeWhile (fun c => c != ']')
    match rest.drop t.length with
    | ']' :: '(' :: rest2 =>
      let u := rest2.takeWhile (fun c => c != ')')
      if u = [] then none
      else
        match rest2.drop u.length with
        | ')' :: _ => some ([], t.length + u.length + 4)
        | _ => none
    | _ => none
  | _ => none

/-- Matcher for the inline-code removal re.sub over a backtick, a nonempty
run of non-backticks and a closing backtick. -/
def mInlineCode : List Char → Option (List Char × Nat)
  | c :: rest =>
    if c == backtickChar then
      let t := rest.takeWhile (fun x => x != backtickChar)
      if t = [] then none
      else
        match rest.drop t.length with
        | d :: _ => if d == backtickChar then some ([], t.length + 1) else none
        | _ => none
    else none
  | _ => none

/-- Matcher for the fenced-code removal (three backticks, a nonempty run of
non-backticks, three backticks; the regex class collapses the repeated
backticks). -/
def mCodeBlock : List Char → Option (List Char × Nat)
  | a :: b :: c :: rest =>
    if a == backtickChar && b == backtickChar && c == backtickChar then
      let t := rest.takeWhile (fun x => x != backtickChar)
      if t = [] then none
      else
        match rest.drop t.length with
        | d :: e :: f :: _ =>
          if d == backtickChar && e == backtickChar && f == backtickChar then
            some ([], t.length + 5)
          else none
        | _ => none
    else none
  | _ => none

/-- re.split(r'[.!?]+', _): segments between maximal delimiter runs. -/
def splitOnRuns (p : Char → Bool) : List Char → List (List Char)
  | [] => [[]]
  | c :: cs =>
    if p c then [] :: splitOnRuns p (cs.dropWhile p)
    else
      match splitOnRuns p cs with
      | h :: t => (c :: h) :: t
      | [] => [[c]]
termination_by l => l.length
decreasing_by
  · have h : (cs.dropWhile p).length ≤ cs.length := (List.dropWhile_suffix p).sublist.length_le
    simp; omega
  · simp

/-- SmartFrontmatterGenerator._generate_excerpt: strip Markdown syntax layer
by layer, pick the first sentence longer than twenty characters (else the
first hundred characters), cap at 160 characters with an ellipsis, and fall
back to a title-derived sentence when too short. -/
def generate_excerpt (content title : String) : String :=
  let c1 := pySub mHeader content.data
  let c2 := pySub mBold c1
  let c3 := pySub mItalic c2
  let c4 := pySub mLink c3
  let c5 := pySub mImage c4
  let c6 := pySub mInlineCode c5
  let c7 := pySub mCodeBlock c6
  let c8 := squashRuns (fun c => c == '\n') ' ' c7
  let c9 := squashRuns pyIsSpace ' ' c8
  let sentences := splitOnRuns (fun c => c == '.' || c == '!' || c == '?') c9
  let excerpt :=
    match sentences.find? (fun s => (pyStripL s).length > 20) with
    | some s => pyStripL s
    | none => pyStripL (c9.take 100)
  let excerpt :=
    if excerpt.length > 160 then excerpt.take 157 ++ ("..." : String).data
    else excerpt
  let excerpt :=
    if excerpt.length < 20 then ("Notes about " : String).data ++ pyLowerL title.data
    else excerpt
  String.mk excerpt

/-- Value stored under the "tags" key: the classifier JSON may deliver a list
of strings or a scalar (which _validate_frontmatter wraps into a one-element
list). -/
inductive TagsValue where
  | strs (l : List String)
  | scalar (s : String)
deriving DecidableEq, Repr

/-- The four fields requested from the classifier; absent keys are none. -/
structure GeneratedMeta where
  slug : Option String := none
  category : Option String := none
  tags : Option TagsValue := none
  excerpt : Option String := none
deriving DecidableEq, Repr

/-- Frontmatter dictionary as built by generate_frontmatter: the base keys
title/date/author are always present, the enrichment keys may be absent. -/
structure PyFrontmatter where
  title : String
  date : String
  author : String
  slug : Option String := none
  category : Option String := none
  tags : Option TagsValue := none
  excerpt : Option String := none
deriving DecidableEq, Repr

/-- Source metadata handed to generate_frontmatter (existing_metadata). -/
structure ExistingMeta where
  title : Option String := none
  created : Option String := none
  folder : Option String := none
deriving DecidableEq, Repr

/-- Lines 77-81 of generate_frontmatter: the always-present base record. -/
def base_frontmatter (authorName nowDate : String) (meta : ExistingMeta) : PyFrontmatter :=
  { title := meta.title.getD "Untitled Note",
    date := meta.created.getD nowDate,
    author := authorName }

/-- SmartFrontmatterGenerator._generate_fallback_frontmatter: the rule-based
enrichment of the base record. -/
def generate_fallback_frontmatter (content : String) (meta : ExistingMeta)
    (base : PyFrontmatter) : PyFrontmatter :=
  let title := base.title
  { base with
    slug := some (generate_slug title),
    category := some (folder_to_category (meta.folder.getD "Notes")),
    tags := some (.strs (extract_basic_tags content title)),
    excerpt := some (generate_excerpt content title) }

/-- SmartFrontmatterGenerator._validate_frontmatter: backfill the missing
required fields, coerce tags to a string list, cap tags at ten and the
excerpt at two hundred characters, restrict the slug to [a-z0-9-].  The
title/date/author keys are always present in this model, so their backfill
branches never fire. -/
def validate_frontmatter (fm : PyFrontmatter) : PyFrontmatter :=
  let slug0 := fm.slug.getD (generate_slug fm.title)
  let category := fm.category.getD "Personal"
  let tags0 := fm.tags.getD (.strs ["notes"])
  let excerpt0 := fm.excerpt.getD ("Notes from " ++ fm.title)
  let tagsList := match tags0 with
    | .strs l => l
    | .scalar s => [s]
  let tagsList := if tagsList.length > 10 then tagsList.take 10 else tagsList
  let excerpt :=
    if excerpt0.length > 200 then String.mk (excerpt0.data.take 197) ++ "..."
    else excerpt0
  let slug := String.mk ((pyLowerL slug0.data).filter isKebabChar)
  { fm with slug := some slug, category := some category,
            tags := some (.strs tagsList), excerpt := some excerpt }

/-- Possible results of the external classifier interaction inside
_generate_with_claude: the API call raised (or timed out), the response text
held no JSON object, the JSON failed to parse, or a metadata object was
parsed. -/
inductive ClaudeOutcome where
  | raised
  | noJson
  | badJson
  | parsed (g : GeneratedMeta)
deriving DecidableEq, Repr

/-- Python dict merge {**base, **generated}: generated keys override. -/
def merge_generated (base : PyFrontmatter) (g : GeneratedMeta) : PyFrontmatter :=
  { base with
    slug := match g.slug with | some s => some s | none => base.slug,
    category := match g.category with | some s => some s | none => base.category,
    tags := match g.tags with | some t => some t | none => base.tags,
    excerpt := match g.excerpt with | some s => some s | none => base.excerpt }

/-- SmartFrontmatterGenerator._generate_with_claude with the network call
abstracted into the outcome: a raise propagates (.error), a missing or
unparsable JSON object returns the bare base record, and a parsed object is
merged, has the author forced, and is validated. -/
def generate_with_claude (authorName : String) (base : PyFrontmatter)
    (outcome : ClaudeOutcome) : Except Unit PyFrontmatter :=
  match outcome with
  | .raised => .error ()
  | .noJson => .ok base
  | .badJson => .ok base
  | .parsed g =>
    let fm := merge_generated base g
    let fm := { fm with author := authorName }
    .ok (validate_frontmatter fm)

/-- SmartFrontmatterGenerator.generate_frontmatter: build the base record;
without a client or in fallback-only mode use the rule-based path; otherwise
delegate to the classifier and fall back to the rule-based path only when
that call raises. -/
def generate_frontmatter (hasClient fallbackOnly : Bool) (outcome : ClaudeOutcome)
    (authorName nowDate : String) (content : String) (meta : ExistingMeta) :
    PyFrontmatter :=
  let base := base_frontmatter authorName nowDate meta
  if !hasClient || fallbackOnly then generate_fallback_frontmatter content meta base
  else
    match generate_with_claude authorName base outcome with
    | .ok fm => fm
    | .error _ => generate_fallback_frontmatter content meta base

/-! MDX converter (src/exporter/src/mdx_converter.py): the heading enforcement
_ensure_heading and the YAML frontmatter serializer
_dict_to_yaml_frontmatter / _yaml_safe_string. -/

/-- Python `s.split('\n')` on a character list. -/
def splitNl : List Char → List (List Char)
  | [] => [[]]
  | c :: cs =>
    if c == '\n' then [] :: splitNl cs
    else
      match splitNl cs with
      | h :: t => (c :: h) :: t
      | [] => [[c]]

/-- Python `'\n'.join(lines)` on character lists. -/
def joinNl : List (List Char) → List Char
  | [] => []
  | [l] => l
  | l :: rest => l ++ '\n' :: joinNl rest

/-- Replace the first line with nonempty strip by the given line (the
enumerate/break loop of _ensure_heading). -/
def replaceFirstNonBlank (newLine : List Char) : List (List Char) → List (List Char)
  | [] => []
  | l :: rest =>
    if (pyStripL l).isEmpty then l :: replaceFirstNonBlank newLine rest
    else newLine :: rest

/-- Python `s.replace(' ', '-')` characterwise. -/
def spaceToDash (l : List Char) : List Char :=
  l.map (fun c => if c == ' ' then '-' else c)

/-- Title comparison of _ensure_heading: the stripped first line equals the
title up to lowercasing, or up to space-to-hyphen replacement plus
lowercasing. -/
def titleMatches (fl : List Char) (title : String) : Bool :=
  pyLowerL fl == pyLowerL title.data ||
  pyLowerL (spaceToDash fl) == pyLowerL (spaceToDash title.data)

/-- First segment of a character list with a nonempty strip, stripped (the
first_non_empty_line computation of _ensure_heading, on the data level). -/
def firstNonBlankData (l : List Char) : Option (List Char) :=
  ((splitNl l).find? (fun seg => !(pyStripL seg).isEmpty)).map pyStripL

/-- First line of a document with a nonempty strip, stripped. -/
def firstNonBlank (s : String) : Option String :=
  (firstNonBlankData s.data).map String.mk

/-- MDXConverter._ensure_heading: leave empty content and content already
starting with a heading unchanged; replace a first line that textually
matches the title by a heading; otherwise prepend a heading derived from
the title. -/
def ensure_heading (content : String) (title : String) : String :=
  if content = "" then content
  else
    match ((splitNl content.data).find? (fun l => !(pyStripL l).isEmpty)).map pyStripL with
    | none => content
    | some fl =>
      if fl.head? = some '#' then content
      else if titleMatches fl title then
        String.mk (joinNl (replaceFirstNonBlank ('#' :: ' ' :: title.data)
          (splitNl content.data)))
      else
        String.mk ('#' :: ' ' :: title.data ++ '\n' :: '\n' :: content.data)

/-- YAML-significant characters of _yaml_safe_string: colon, braces,
brackets, exclamation mark, greater-than, pipe, asterisk, ampersand,
percent, at sign, backtick, hash, question mark. -/
def specialCharsYaml : List Char :=
  [':', lbraceChar, rbraceChar, '[', ']', '!', '>', '|', '*', '&', '%', '@',
   backtickChar, '#', '?']

/-- YAML reserved words of _yaml_safe_string. -/
def yamlReserved : List String := ["true", "false", "null", "yes", "no", "on", "off"]

def isDigitChar (c : Char) : Bool := '0' ≤ c && c ≤ '9'

/-- Continuation of a digit run in Python float syntax: digits with single
underscores allowed between digits. -/
def digitsUAux : List Char → Bool
  | [] => true
  | '_' :: c :: rest => isDigitChar c && digitsUAux rest
  | '_' :: [] => false
  | c :: rest => isDigitChar c && digitsUAux rest

/-- Nonempty digit run with single underscores between digits. -/
def digitsU : List Char → Bool
  | [] => false
  | c :: rest => isDigitChar c && digitsUAux rest

/-- Split a list at the first character satisfying p. -/
def splitFirst (p : Char → Bool) (l : List Char) : Option (List Char × List Char) :=
  match l.findIdx? p with
  | some i => some (l.take i, l.drop (i + 1))
  | none => none

/-- Significand of Python float syntax: digits, digits.digits, digits., or
.digits. -/
def mantissaOK (m : List Char) : Bool :=
  match splitFirst (fun c => c == '.') m with
  | none => digitsU m
  | some (a, b) =>
    (digitsU a && (b.isEmpty || digitsU b)) || (a.isEmpty && digitsU b)

/-- Exponent part of Python float syntax (after the e): optional sign and a
digit run. -/
def exponentOK (e : List Char) : Bool :=
  match e with
  | c :: rest => if c == '+' || c == '-' then digitsU rest else digitsU e
  | [] => false

/-- Acceptance of Python float(value): strip whitespace, optional sign, then
inf/infinity/nan (case-insensitive) or a decimal significand with optional
exponent.  Unicode digits accepted by Python are not modelled. -/
def pyFloatParsable (s : String) : Bool :=
  let l := pyStripL s.data
  let l := match l with
    | c :: rest => if c == '+' || c == '-' then rest else c :: rest
    | [] => []
  let low := pyLowerL l
  if low == ("inf" : String).data || low == ("infinity" : String).data ||
     low == ("nan" : String).data then true
  else
    match splitFirst (fun c => c == 'e') low with
    | none => mantissaOK low
    | some (mant, expPart) => mantissaOK mant && exponentOK expPart

/-- Escaping pass value.replace('\\','\\\\').replace('"','\\"') of
_yaml_safe_string (one characterwise pass is equivalent because the second
replacement never touches the backslashes introduced by the first). -/
def escapeBsQ (l : List Char) : List Char :=
  l.flatMap (fun c =>
    if c == '\\' then ['\\', '\\']
    else if c == quoteChar then ['\\', quoteChar]
    else [c])

/-- Indentation pass escaped.replace('\n', '\n  ') of the block-literal case. -/
def indentNl (l : List Char) : List Char :=
  l.flatMap (fun c => if c == '\n' then ['\n', ' ', ' '] else [c])

/-- Quoting decision of _yaml_safe_string. -/
def yamlNeedsQuotes (v : String) : Bool :=
  v.data.any (fun c => specialCharsYaml.contains c) ||
  List.isPrefixOf ('-' :: [' ']) v.data ||
  List.isPrefixOf ('?' :: [' ']) v.data ||
  List.isPrefixOf (':' :: [' ']) v.data ||
  v.data.getLast? == some ':' ||
  yamlReserved.contains v ||
  !(pyStripL v.data == v.data) ||
  v.data.contains '\n' ||
  v.data.contains quoteChar ||
  v.data.contains apoChar ||
  pyFloatParsable v

/-- MDXConverter._yaml_safe_string: empty strings become a quoted empty
string; values needing no quoting are emitted bare; otherwise backslashes
and double quotes are escaped and the value is emitted double-quoted, or as
an indented block literal when it contains a newline. -/
def yaml_safe_string (v : String) : String :=
  if v = "" then String.mk [quoteChar, quoteChar]
  else if !(yamlNeedsQuotes v) then v
  else
    let escaped := escapeBsQ v.data
    if escaped.contains '\n' then
      String.mk (('|' :: '-' :: '\n' :: ' ' :: [' ']) ++ indentNl escaped)
    else
      String.mk (quoteChar :: escaped ++ [quoteChar])

/-- Greedy bounded digit-field match of strptime: the maximal digit run at
the front, failing when empty or longer than the width. -/
def matchField (maxWidth : Nat) (l : List Char) : Option (Nat × List Char) :=
  let run := l.takeWhile isDigitChar
  if run.isEmpty || run.length > maxWidth then none
  else some (run.foldl (fun a c => a * 10 + (c.toNat - 48)) 0, l.drop run.length)

/-- Literal one-character match. -/
def matchLit (c : Char) : List Char → Option (List Char)
  | x :: rest => if x == c then some rest else none
  | [] => none

def isLeapYear (y : Nat) : Bool := y % 4 == 0 && (y % 100 != 0 || y % 400 == 0)

def daysInMonth (y m : Nat) : Nat :=
  if m == 2 then (if isLeapYear y then 29 else 28)
  else if m == 4 || m == 6 || m == 9 || m == 11 then 30
  else 31

/-- Validity of a datetime.date: year 1..9999, month 1..12, day within the
month. -/
def dateValid (y m d : Nat) : Bool :=
  1 ≤ y && y ≤ 9999 && 1 ≤ m && m ≤ 12 && 1 ≤ d && d ≤ daysInMonth y m

/-- strptime(_, '%Y-%m-%d') with full-match requirement. -/
def parseYMD (l : List Char) : Option (Nat × Nat × Nat) := do
  let (y, r) ← matchField 4 l
  let r ← matchLit '-' r
  let (m, r) ← matchField 2 r
  let r ← matchLit '-' r
  let (d, r) ← matchField 2 r
  if r.isEmpty && dateValid y m d then some (y, m, d) else none

/-- strptime(_, '%m/%d/%Y') with full-match requirement. -/
def parseMDYSlash (l : List Char) : Option (Nat × Nat × Nat) := do
  let (m, r) ← matchField 2 l
  let r ← matchLit '/' r
  let (d, r) ← matchField 2 r
  let r ← matchLit '/' r
  let (y, r) ← matchField 4 r
  if r.isEmpty && dateValid y m d then some (y, m, d) else none

/-- strptime(_, '%Y-%m-%d %H:%M:%S') with full-match requirement. -/
def parseYMDHMS (l : List Char) : Option (Nat × Nat × Nat) := do
  let (y, r) ← matchField 4 l
  let r ← matchLit '-' r
  let (m, r) ← matchField 2 r
  let r ← matchLit '-' r
  let (d, r) ← matchField 2 r
  let r ← matchLit ' ' r
  let (hh, r) ← matchField 2 r
  let r ← matchLit ':' r
  let (mi, r) ← matchField 2 r
  let r ← matchLit ':' r
  let (ss, r) ← matchField 2 r
  if r.isEmpty && dateValid y m d && hh ≤ 23 && mi ≤ 59 && ss ≤ 59 then
    some (y, m, d)
  else none

/-- strptime(_, '%m-%d-%Y') with full-match requirement. -/
def parseMDYDash (l : List Char) : Option (Nat × Nat × Nat) := do
  let (m, r) ← matchField 2 l
  let r ← matchLit '-' r
  let (d, r) ← matchField 2 r
  let r ← matchLit '-' r
  let (y, r) ← matchField 4 r
  if r.isEmpty && dateValid y m d then some (y, m, d) else none

/-- Zero-pad to width 2 (strftime %m / %d). -/
def pad2 (n : Nat) : String :=
  let s := toString n
  String.mk (List.replicate (2 - s.length) '0') ++ s

/-- Date normalisation of the date branch of _dict_to_yaml_frontmatter: try
the four formats in order, reformat a successful parse as %Y-%m-%d, leave
anything else unchanged. -/
def formatDateStr (s : String) : String :=
  let tryAll :=
    match parseYMD s.data with
    | some v => some v
    | none =>
      match parseMDYSlash s.data with
      | some v => some v
      | none =>
        match parseYMDHMS s.data with
        | some v => some v
        | none => parseMDYDash s.data
  match tryAll with
  | some (y, m, d) => toString y ++ "-" ++ pad2 m ++ "-" ++ pad2 d
  | none => s

/-- Frontmatter record handed to the serializer: the synthesized fields plus
the two Gatsby fields that _dict_to_yaml_frontmatter backfills when
missing. -/
structure FMDict where
  title : String
  slug : String
  excerpt : String
  date : String
  category : String
  tags : List String
  author : String
  readingTime : Option String := none
  featured : Option Bool := none
deriving DecidableEq, Repr

/-- Single-quote wrapper string for the date line. -/
def sqStr : String := String.mk [apoChar]

/-- Excerpt lines: a |- block literal with two-space indentation when the
excerpt exceeds sixty characters, else one line through _yaml_safe_string. -/
def excerptLines (excerpt : String) : List String :=
  if excerpt.length > 60 then
    "excerpt: |-" :: (splitNl excerpt.data).map (fun ln => "  " ++ String.mk ln)
  else ["excerpt: " ++ yaml_safe_string excerpt]

/-- Tags lines: the multi-line hyphen list, or the empty flow list. -/
def tagsLines (tags : List String) : List String :=
  if tags.isEmpty then ["tags: []"]
  else "tags:" :: tags.map (fun t => "  - " ++ t)

/-- MDXConverter._dict_to_yaml_frontmatter as the list of emitted lines:
delimiters, the nine fields in the fixed order with their per-field
formatting, closing delimiter and the trailing blank line. -/
def yamlLines (fm : FMDict) : List String :=
  let readingTime := fm.readingTime.getD "5 min read"
  let featured := fm.featured.getD false
  ["---"] ++
  ["title: " ++ yaml_safe_string fm.title] ++
  ["slug: " ++ fm.slug] ++
  excerptLines fm.excerpt ++
  ["date: " ++ sqStr ++ formatDateStr fm.date ++ sqStr] ++
  ["category: " ++ yaml_safe_string fm.category] ++
  tagsLines fm.tags ++
  ["readingTime: " ++ yaml_safe_string readingTime] ++
  ["featured: " ++ (if featured then "true" else "false")] ++
  ["author: " ++ yaml_safe_string fm.author] ++
  ["---", ""]

/-- The serialized frontmatter block ('\n'.join(lines)). -/
def dict_to_yaml_frontmatter (fm : FMDict) : String :=
  String.intercalate "\n" (yamlLines fm)

/-- No two adjacent hyphens (the post-state of collapsing hyphen runs). -/
def noAdjHyphen : List Char → Bool
  | [] => true
  | [_] => true
  | a :: b :: t => !(a == '-' && b == '-') && noAdjHyphen (b :: t)

/-- Normal form of the kebab pipeline before truncation: nonempty, only
[a-z0-9-], no boundary hyphens, no hyphen runs. -/
def KebabClean (l : List Char) : Prop :=
  (∀ c ∈ l, isKebabChar c = true) ∧ l ≠ [] ∧ l.head? ≠ some '-' ∧
  l.getLast? ≠ some '-' ∧ noAdjHyphen l = true

/-! Helper lemmas about the character classes and list utilities. -/

theorem isKebabChar_cases {c : Char} (h : isKebabChar c = true) :
    ('a' ≤ c ∧ c ≤ 'z') ∨ ('0' ≤ c ∧ c ≤ '9') ∨ c = '-' := by
  simp only [isKebabChar, Bool.or_eq_true, Bool.and_eq_true, decide_eq_true_eq,
    beq_iff_eq] at h
  rcases h with (h | h) | h
  exacts [Or.inl h, Or.inr (Or.inl h), Or.inr (Or.inr h)]

theorem pyIsSpace_of_kebab {c : Char} (h : isKebabChar c = true) :
    pyIsSpace c = false := by
  cases hsp : pyIsSpace c with
  | false => rfl
  | true =>
    exfalso
    simp only [pyIsSpace, Bool.or_eq_true, beq_iff_eq] at hsp
    rcases hsp with ((((rfl | rfl) | rfl) | rfl) | rfl) | rfl <;>
      exact absurd h (by decide)

theorem sep_of_kebab {c : Char} (h : isKebabChar c = true) :
    isSepChar c = false := by
  cases hsep : isSepChar c with
  | false => rfl
  | true =>
    exfalso
    have hm : c ∈ sepChars := by
      simpa [isSepChar, List.contains_iff_exists_mem_beq, beq_iff_eq] using hsep
    fin_cases hm <;> exact absurd h (by decide)

theorem toLower_of_kebab {c : Char} (h : isKebabChar c = true) :
    c.toLower = c := by
  rcases isKebabChar_cases h with ⟨h1, h2⟩ | ⟨h1, h2⟩ | rfl
  · have g1 : ('a').toNat ≤ c.toNat := h1
    have ha : ('a').toNat = 97 := by decide
    rw [ha] at g1
    unfold Char.toLower
    rw [if_neg]
    intro hc
    omega
  · have g2 : c.toNat ≤ ('9').toNat := h2
    have h9 : ('9').toNat = 57 := by decide
    rw [h9] at g2
    unfold Char.toLower
    rw [if_neg]
    intro hc
    omega
  · decide

theorem ascii_of_kebab {c : Char} (h : isKebabChar c = true) :
    c.toNat < 128 := by
  rcases isKebabChar_cases h with ⟨_, h2⟩ | ⟨_, h2⟩ | rfl
  · have g2 : c.toNat ≤ ('z').toNat := h2
    have hz : ('z').toNat = 122 := by decide
    omega
  · have g2 : c.toNat ≤ ('9').toNat := h2
    have h9 : ('9').toNat = 57 := by decide
    omega
  · decide

theorem dropWhile_eq_self_of_not {p : Char → Bool} {l : List Char}
    (h : ∀ c ∈ l, p c = false) : l.dropWhile p = l := by
  cases l with
  | nil => rfl
  | cons a t =>
    rw [List.dropWhile_cons, if_neg]
    simp [h a (List.mem_cons_self a t)]

theorem pyStripWith_eq_self_of_not {p : Char → Bool} {l : List Char}
    (h : ∀ c ∈ l, p c = false) : pyStripWith p l = l := by
  unfold pyStripWith
  rw [dropWhile_eq_self_of_not h]
  rw [dropWhile_eq_self_of_not (fun c hc => h c (List.mem_reverse.mp hc))]
  exact List.reverse_reverse l

theorem head_dropWhile_false {p : Char → Bool} {l : List Char} {c : Char}
    (h : (l.dropWhile p).head? = some c) : p c = false := by
  induction l with
  | nil => simp [List.dropWhile] at h
  | cons a t ih =>
    rw [List.dropWhile_cons] at h
    by_cases hp : p a
    · rw [if_pos hp] at h
      exact ih h
    · rw [if_neg hp] at h
      simp at h
      subst h
      simpa using hp

theorem pyStripWith_prefix_dropWhile (p : Char → Bool) (l : List Char) :
    pyStripWith p l <+: l.dropWhile p := by
  unfold pyStripWith
  have hs : ((l.dropWhile p).reverse.dropWhile p) <:+ (l.dropWhile p).reverse :=
    List.dropWhile_suffix p
  have := List.reverse_prefix.mpr
    (by simpa using hs : ((l.dropWhile p).reverse.dropWhile p) <:+ ((l.dropWhile p).reverse.reverse).reverse)
  simpa using this

theorem pyStripWith_within (p : Char → Bool) (l : List Char) :
    pyStripWith p l <:+: l :=
  (pyStripWith_prefix_dropWhile p l).isInfix.trans (List.dropWhile_suffix p).isInfix

theorem pyStripWith_head {p : Char → Bool} {l : List Char} {c : Char}
    (h : (pyStripWith p l).head? = some c) : p c = false := by
  rcases pyStripWith_prefix_dropWhile p l with ⟨t, ht⟩
  cases hstrip : pyStripWith p l with
  | nil => rw [hstrip] at h; simp at h
  | cons a u =>
    rw [hstrip] at h ht
    simp at h
    subst h
    have harg : (l.dropWhile p).head? = some a := by rw [← ht]; rfl
    exact head_dropWhile_false harg

theorem pyStripWith_getLast {p : Char → Bool} {l : List Char} {c : Char}
    (h : (pyStripWith p l).getLast? = some c) : p c = false := by
  unfold pyStripWith at h
  rw [List.getLast?_reverse] at h
  exact head_dropWhile_false h

theorem pyStripWith_cons_head {p : Char → Bool} {c : Char} {cs : List Char}
    (h : p c = false) : ∃ t, pyStripWith p (c :: cs) = c :: t := by
  have hne : pyStripWith p (c :: cs) ≠ [] := by
    unfold pyStripWith
    rw [List.dropWhile_cons, if_neg (by simp [h])]
    intro hemp
    rw [List.reverse_eq_nil_iff] at hemp
    have := List.dropWhile_eq_nil_iff.mp hemp c (by simp)
    simp [h] at this
  have hpref : pyStripWith p (c :: cs) <+: c :: cs := by
    have hp := pyStripWith_prefix_dropWhile p (c :: cs)
    rwa [List.dropWhile_cons, if_neg (by simp [h])] at hp
  cases hs : pyStripWith p (c :: cs) with
  | nil => exact absurd hs hne
  | cons d rest =>
    rcases hpref with ⟨t2, ht2⟩
    rw [hs] at ht2
    simp at ht2
    refine ⟨rest, ?_⟩
    rw [ht2.1]

theorem mem_squashRunsAux {p : Char → Bool} {r : Char} {l : List Char} {b : Bool}
    {c : Char} (h : c ∈ squashRunsAux p r b l) : c ∈ l ∨ c = r := by
  induction l generalizing b with
  | nil => simp [squashRunsAux] at h
  | cons a t ih =>
    rw [squashRunsAux] at h
    by_cases hp : p a
    · rw [if_pos hp] at h
      cases b with
      | true =>
        rw [if_pos rfl] at h
        rcases ih h with hm | hr
        · exact Or.inl (List.mem_cons_of_mem a hm)
        · exact Or.inr hr
      | false =>
        rw [if_neg (by simp)] at h
        rcases List.mem_cons.mp h with rfl | h2
        · exact Or.inr rfl
        · rcases ih h2 with hm | hr
          · exact Or.inl (List.mem_cons_of_mem a hm)
          · exact Or.inr hr
    · rw [if_neg hp] at h
      rcases List.mem_cons.mp h with rfl | h2
      · exact Or.inl (List.mem_cons_self c t)
      · rcases ih h2 with hm | hr
        · exact Or.inl (List.mem_cons_of_mem a hm)
        · exact Or.inr hr

theorem squashRunsAux_eq_self {p : Char → Bool} {r : Char} {l : List Char}
    (h : ∀ c ∈ l, p c = false) (b : Bool) : squashRunsAux p r b l = l := by
  induction l generalizing b with
  | nil => rfl
  | cons a t ih =>
    rw [squashRunsAux, if_neg (by simp [h a (List.mem_cons_self a t)])]
    rw [ih (fun c hc => h c (List.mem_cons_of_mem a hc))]

theorem squashRunsAux_true_head {p : Char → Bool} {r : Char} {l : List Char}
    (h : ∀ c, l.head? = some c → p c = false) :
    squashRunsAux p r true l = squashRunsAux p r false l := by
  cases l with
  | nil => rfl
  | cons a t =>
    have ha : p a = false := h a rfl
    rw [squashRunsAux, squashRunsAux, if_neg (by simp [ha]), if_neg (by simp [ha])]

theorem noAdjHyphen_cons {a : Char} {t : List Char}
    (ht : noAdjHyphen t = true)
    (hh : ∀ x, t.head? = some x → ¬(a = '-' ∧ x = '-')) :
    noAdjHyphen (a :: t) = true := by
  cases t with
  | nil => rfl
  | cons b u =>
    rw [noAdjHyphen]
    have := hh b rfl
    simp only [Bool.and_eq_true, Bool.not_eq_true', beq_iff_eq] at *
    constructor
    · by_cases hab : a = '-'
      · by_cases hbb : b = '-'
        · exact absurd ⟨hab, hbb⟩ this
        · simp [Bool.and_eq_false_iff, hbb]
      · simp [Bool.and_eq_false_iff, hab]
    · exact ht

theorem noAdjHyphen_of_cons {a : Char} {t : List Char}
    (h : noAdjHyphen (a :: t) = true) : noAdjHyphen t = true := by
  cases t with
  | nil => rfl
  | cons b u =>
    rw [noAdjHyphen, Bool.and_eq_true] at h
    exact h.2

theorem squashHyphens_noAdj (l : List Char) :
    ∀ b, noAdjHyphen (squashRunsAux (fun c => c == '-') '-' b l) = true ∧
      (∀ x, (squashRunsAux (fun c => c == '-') '-' true l).head? = some x → x ≠ '-') := by
  induction l with
  | nil => intro b; exact ⟨rfl, by intro x hx; simp [squashRunsAux] at hx⟩
  | cons a t ih =>
    intro b
    by_cases hp : a = '-'
    · subst hp
      constructor
      · cases b with
        | true =>
          rw [squashRunsAux, if_pos (by simp)]
          exact (ih true).1
        | false =>
          rw [squashRunsAux, if_pos (by simp), if_neg (by simp)]
          refine noAdjHyphen_cons (ih true).1 ?_
          intro x hx hax
          exact (ih true).2 x hx hax.2
      · intro x hx
        rw [squashRunsAux, if_pos (by simp)] at hx
        exact (ih true).2 x hx
    · constructor
      · rw [squashRunsAux, if_neg (by simp [hp])]
        refine noAdjHyphen_cons (ih false).1 ?_
        intro x hx hax
        exact hp hax.1
      · intro x hx
        rw [squashRunsAux, if_neg (by simp [hp])] at hx
        simp at hx
        subst hx
        exact hp

theorem squashHyphens_fixed {l : List Char}
    (h : noAdjHyphen l = true) :
    squashRunsAux (fun c => c == '-') '-' false l = l := by
  induction l with
  | nil => rfl
  | cons a t ih =>
    by_cases hp : a = '-'
    · subst hp
      rw [squashRunsAux, if_pos (by simp), if_neg (by simp)]
      have hstep : squashRunsAux (fun c => c == '-') '-' true t =
          squashRunsAux (fun c => c == '-') '-' false t := by
        refine squashRunsAux_true_head ?_
        intro c hc
        cases t with
        | nil => simp at hc
        | cons b u =>
          simp at hc
          subst hc
          rw [noAdjHyphen, Bool.and_eq_true] at h
          have h1 := h.1
          simp only [Bool.not_eq_true'] at h1
          rw [Bool.and_eq_false_iff] at h1
          rcases h1 with h1 | h1
          · simp at h1
          · exact h1
      rw [hstep, ih (noAdjHyphen_of_cons h)]
    · rw [squashRunsAux, if_neg (by simp [hp])]
      rw [ih (noAdjHyphen_of_cons h)]

theorem noAdjHyphen_iff_no_double_hyphen (l : List Char) :
    noAdjHyphen l = true ↔ ¬ (['-', '-'] <:+: l) := by
  induction l with
  | nil =>
    simp only [noAdjHyphen, true_iff]
    intro h
    have := h.sublist.length_le
    simp at this
  | cons a t ih =>
    cases t with
    | nil =>
      simp only [noAdjHyphen, true_iff]
      intro h
      have := h.sublist.length_le
      simp at this
    | cons b u =>
      rw [noAdjHyphen, Bool.and_eq_true, ih]
      constructor
      · rintro ⟨hab, ht⟩ hinf
        rcases List.infix_cons_iff.mp hinf with hpre | hinf2
        · rcases hpre with ⟨t2, ht2⟩
          simp at ht2
          obtain ⟨rfl, rfl, _⟩ := ht2
          simp at hab
        · exact ht hinf2
      · intro hn
        constructor
        · simp only [Bool.not_eq_true', Bool.and_eq_false_iff]
          by_cases hb : (b == '-') = false
          · exact Or.inr hb
          · left
            simp only [Bool.not_eq_false] at hb
            simp only [beq_iff_eq] at hb
            subst hb
            by_cases ha : a = '-'
            · exfalso
              subst ha
              exact hn ⟨[], u, rfl⟩
            · simp [ha]
        · intro hinf2
          exact hn (List.infix_cons hinf2)

theorem noAdjHyphen_of_infix {l1 l2 : List Char} (h : l1 <:+: l2)
    (hn : noAdjHyphen l2 = true) : noAdjHyphen l1 = true := by
  rw [noAdjHyphen_iff_no_double_hyphen] at *
  intro hinf
  exact hn (hinf.trans h)

theorem map_eq_self_of {f : Char → Char} {l : List Char}
    (h : ∀ c ∈ l, f c = c) : l.map f = l := by
  induction l with
  | nil => rfl
  | cons a t ih => simp_all

theorem pyStripWith_eq_self_of_ends {p : Char → Bool} {l : List Char}
    (hh : ∀ c, l.head? = some c → p c = false)
    (hl : ∀ c, l.getLast? = some c → p c = false) : pyStripWith p l = l := by
  unfold pyStripWith
  have d1 : l.dropWhile p = l := by
    cases l with
    | nil => rfl
    | cons a t => rw [List.dropWhile_cons, if_neg (by simp [hh a rfl])]
  rw [d1]
  have d2 : l.reverse.dropWhile p = l.reverse := by
    cases hr : l.reverse with
    | nil => rfl
    | cons a t =>
      have ha : l.getLast? = some a := by
        rw [← List.head?_reverse, hr]
        rfl
      rw [List.dropWhile_cons, if_neg (by simp [hl a ha])]
  rw [d2, List.reverse_reverse]

theorem kebabCoreL_fixed {l : List Char}
    (hk : ∀ c ∈ l, isKebabChar c = true)
    (hh : l.head? ≠ some '-') (hl : l.getLast? ≠ some '-')
    (hn : noAdjHyphen l = true) : kebabCoreL l = l := by
  unfold kebabCoreL
  have h1 : l.filter (fun c => c.toNat < 128) = l :=
    List.filter_eq_self.mpr (fun c hc => by
      simpa using ascii_of_kebab (hk c hc))
  rw [h1]
  have h2 : pyLowerL l = l := map_eq_self_of (fun c hc => toLower_of_kebab (hk c hc))
  rw [h2]
  have h3 : squashRuns isSepChar '-' l = l :=
    squashRunsAux_eq_self (fun c hc => sep_of_kebab (hk c hc)) false
  rw [h3]
  have h4 : l.filter isKebabChar = l := List.filter_eq_self.mpr hk
  rw [h4]
  have h5 : squashRuns (fun c => c == '-') '-' l = l := squashHyphens_fixed hn
  rw [h5]
  refine pyStripWith_eq_self_of_ends ?_ ?_
  · intro c hc
    simp only [beq_eq_false_iff_ne, ne_eq]
    intro hcd
    subst hcd
    exact hh hc
  · intro c hc
    simp only [beq_eq_false_iff_ne, ne_eq]
    intro hcd
    subst hcd
    exact hl hc

theorem kebabCoreL_mem {l : List Char} {c : Char} (hc : c ∈ kebabCoreL l) :
    isKebabChar c = true := by
  unfold kebabCoreL at hc
  have h5 := (pyStripWith_within (fun x => x == '-') _).sublist.subset hc
  rcases mem_squashRunsAux h5 with hm | rfl
  · exact List.of_mem_filter hm
  · decide

theorem kebabCoreL_clean {l : List Char} (hne : kebabCoreL l ≠ []) :
    KebabClean (kebabCoreL l) := by
  refine ⟨fun c hc => kebabCoreL_mem hc, hne, ?_, ?_, ?_⟩
  · intro heq
    unfold kebabCoreL at heq
    have := pyStripWith_head heq
    simp at this
  · intro heq
    unfold kebabCoreL at heq
    have := pyStripWith_getLast heq
    simp at this
  · have hn5 : noAdjHyphen (squashRuns (fun c => c == '-') '-'
        ((squashRuns isSepChar '-'
          (pyLowerL (l.filter (fun c => c.toNat < 128)))).filter isKebabChar)) = true :=
      (squashHyphens_noAdj _ false).1
    exact noAdjHyphen_of_infix (pyStripWith_within _ _) hn5

theorem head?_take_ne {l : List Char} {n : Nat} (h : n ≠ 0) :
    (l.take n).head? = l.head? := by
  cases l <;> cases n <;> simp_all

theorem mem_of_head? {l : List Char} {c : Char} (h : l.head? = some c) : c ∈ l := by
  cases l with
  | nil => simp at h
  | cons a t =>
    simp at h
    subst h
    exact List.mem_cons_self a t

theorem truncCut_prefix (l : List Char) (m : Nat) : truncCut l m <+: l := by
  unfold truncCut
  split
  · exact (List.take_prefix _ _).trans (List.take_prefix _ _)
  · exact List.take_prefix _ _

theorem truncCut_length (l : List Char) (m : Nat) : (truncCut l m).length ≤ m := by
  unfold truncCut
  split
  · have h1 : (((l.take m).take (rfindHyphen (l.take m)).toNat)).length ≤ (l.take m).length :=
      (List.take_prefix _ _).sublist.length_le
    have h2 : (l.take m).length ≤ m := l.length_take_le m
    omega
  · exact l.length_take_le m

theorem truncCut_head (l : List Char) (m : Nat) (hm : 1 ≤ m) :
    (truncCut l m).head? = l.head? := by
  unfold truncCut
  have htake : (l.take m).head? = l.head? := head?_take_ne (by omega)
  split
  · rename_i hcond
    have hk : (rfindHyphen (l.take m)).toNat ≠ 0 := by
      have h0 : (0 : Int) ≤ ((m * 2 / 3 : Nat) : Int) := by positivity
      omega
    rw [head?_take_ne hk]
    exact htake
  · exact htake

theorem rstrip_eq_pyStripWith {p : Char → Bool} {l : List Char}
    (hh : ∀ c, l.head? = some c → p c = false) :
    (l.reverse.dropWhile p).reverse = pyStripWith p l := by
  unfold pyStripWith
  have d1 : l.dropWhile p = l := by
    cases l with
    | nil => rfl
    | cons a t => rw [List.dropWhile_cons, if_neg (by simp [hh a rfl])]
  rw [d1]

theorem truncStepL_length (l : List Char) (m : Nat) : (truncStepL l m).length ≤ m := by
  unfold truncStepL
  split
  · have hsuf : (truncCut l m).reverse.dropWhile (fun c => c == '-') <:+
        (truncCut l m).reverse := List.dropWhile_suffix _
    have h1 : ((truncCut l m).reverse.dropWhile (fun c => c == '-')).reverse.length ≤
        (truncCut l m).length := by
      have := hsuf.sublist.length_le
      simpa using this
    exact le_trans h1 (truncCut_length l m)
  · rename_i h
    omega

theorem truncStepL_clean {l : List Char} {m : Nat} (hc : KebabClean l) (hm : 1 ≤ m) :
    KebabClean (truncStepL l m) := by
  obtain ⟨hk, hne, hh, hl, hn⟩ := hc
  unfold truncStepL
  by_cases hlen : l.length > m
  case neg =>
    rw [if_neg hlen]
    exact ⟨hk, hne, hh, hl, hn⟩
  case pos =>
    rw [if_pos hlen]
    obtain ⟨c0, hc0⟩ : ∃ c0, l.head? = some c0 := by
      cases l with
      | nil => exact absurd rfl hne
      | cons a t => exact ⟨a, rfl⟩
    have hc0h : c0 ≠ '-' := fun he => hh (he ▸ hc0)
    have hcut_head : (truncCut l m).head? = some c0 := by
      rw [truncCut_head l m hm]
      exact hc0
    obtain ⟨cs, hcs⟩ : ∃ cs, truncCut l m = c0 :: cs := by
      cases htc : truncCut l m with
      | nil => rw [htc] at hcut_head; simp at hcut_head
      | cons d ds =>
        rw [htc] at hcut_head
        simp at hcut_head
        subst hcut_head
        exact ⟨ds, rfl⟩
    have hpfx : truncCut l m <+: l := truncCut_prefix l m
    have hmem : ∀ c ∈ truncCut l m, isKebabChar c = true :=
      fun c hcm => hk c (hpfx.sublist.subset hcm)
    have hnadj : noAdjHyphen (truncCut l m) = true :=
      noAdjHyphen_of_infix hpfx.isInfix hn
    have hhd : ∀ c, (truncCut l m).head? = some c → ((fun x => x == '-') c) = false := by
      intro c hcc
      rw [hcut_head] at hcc
      simp at hcc
      subst hcc
      simp [hc0h]
    rw [rstrip_eq_pyStripWith hhd]
    have hc0p : ((fun x => x == '-') c0) = false := by simp [hc0h]
    refine ⟨?_, ?_, ?_, ?_, ?_⟩
    · intro c hcm
      exact hmem c ((pyStripWith_within _ _).sublist.subset hcm)
    · rw [hcs]
      obtain ⟨t, ht⟩ := @pyStripWith_cons_head (fun x => x == '-') c0 cs hc0p
      rw [ht]
      simp
    · rw [hcs]
      obtain ⟨t, ht⟩ := @pyStripWith_cons_head (fun x => x == '-') c0 cs hc0p
      rw [ht]
      simp [hc0h]
    · intro heq
      have := pyStripWith_getLast heq
      simp at this
    · exact noAdjHyphen_of_infix (pyStripWith_within _ _) hnadj

theorem untitled_clean : KebabClean ("untitled" : String).data := by
  refine ⟨?_, ?_, ?_, ?_, ?_⟩ <;> decide

theorem to_kebab_case_clean (s : String) (m : Nat) (hm : 8 ≤ m) :
    KebabClean (to_kebab_case s m).data ∧ (to_kebab_case s m).data.length ≤ m := by
  unfold to_kebab_case
  by_cases hstrip : pyStripL s.data = []
  · rw [if_pos hstrip]
    refine ⟨untitled_clean, ?_⟩
    have h8 : ("untitled" : String).data.length = 8 := rfl
    omega
  · rw [if_neg hstrip]
    by_cases hcore : kebabCoreL s.data = []
    · rw [if_pos hcore]
      exact ⟨truncStepL_clean untitled_clean (by omega), truncStepL_length _ _⟩
    · rw [if_neg hcore]
      exact ⟨truncStepL_clean (kebabCoreL_clean hcore) (by omega), truncStepL_length _ _⟩

theorem to_kebab_case_fixed (s : String) (m : Nat) (hcl : KebabClean s.data)
    (hlen : s.data.length ≤ m) : to_kebab_case s m = s := by
  obtain ⟨hk, hne, hh, hl, hn⟩ := hcl
  unfold to_kebab_case
  have hstrip : pyStripL s.data = s.data :=
    pyStripWith_eq_self_of_not (fun c hc => pyIsSpace_of_kebab (hk c hc))
  rw [hstrip, if_neg hne]
  rw [kebabCoreL_fixed hk hh hl hn, if_neg hne]
  have htr : truncStepL s.data m = s.data := by
    unfold truncStepL
    rw [if_neg (by omega)]
  rw [htr]

/-- C8 (amended): the filename normalizer is idempotent for every maxLength of
at least eight: to_kebab_case(to_kebab_case(s, maxLength), maxLength) equals
to_kebab_case(s, maxLength), and an already-normalized string is returned
unchanged.  (For maxLength below eight the eight-character sentinel
"untitled" returned by the early whitespace branch escapes truncation and a
second application truncates it, see the counterexample.) -/
theorem c8_to_kebab_case_idempotent (s : String) (m : Nat) (hm : 8 ≤ m) :
    to_kebab_case (to_kebab_case s m) m = to_kebab_case s m := by
  obtain ⟨hc, hl⟩ := to_kebab_case_clean s m hm
  exact to_kebab_case_fixed (to_kebab_case s m) m hc hl

/-- C8 witness: idempotence at a concrete input with maxLength 50. -/
theorem c8_to_kebab_case_idempotent_witness :
    to_kebab_case (to_kebab_case "Coffee & Tea Reviews!!" 50) 50 =
      to_kebab_case "Coffee & Tea Reviews!!" 50 :=
  c8_to_kebab_case_idempotent "Coffee & Tea Reviews!!" 50 (by norm_num)

/-- C8 counterexample: with maxLength 3 the empty string normalizes to the
sentinel "untitled" (eight characters, bypassing truncation), and a second
application truncates it to "unt", so the normalizer is not idempotent for
every maxLength. -/
theorem c8_counterexample :
    to_kebab_case (to_kebab_case "" 3) 3 ≠ to_kebab_case "" 3 ∧
    to_kebab_case "" 3 = "untitled" ∧
    to_kebab_case (to_kebab_case "" 3) 3 = "unt" := by
  refine ⟨?_, ?_, ?_⟩ <;> decide

/-- C10: an empty or whitespace-only input returns exactly the sentinel
"untitled" for every maxLength, because the early-return branch bypasses
truncation; a non-whitespace input whose normalization core is empty has the
sentinel substituted before truncation, so the result is the truncated
sentinel and in particular at most maxLength characters long. -/
theorem c10_untitled_sentinel (s : String) (m : Nat) :
    (pyStripL s.data = [] → to_kebab_case s m = "untitled")
    ∧ (pyStripL s.data ≠ [] → kebabCoreL s.data = [] →
        to_kebab_case s m = String.mk (truncStepL ("untitled" : String).data m)
        ∧ (to_kebab_case s m).length ≤ m) := by
  constructor
  · intro h
    unfold to_kebab_case
    rw [if_pos h]
  · intro h1 h2
    constructor
    · unfold to_kebab_case
      rw [if_neg h1, if_pos h2]
    · unfold to_kebab_case
      rw [if_neg h1, if_pos h2]
      exact truncStepL_length _ _

/-- C10 witness: the whitespace branch at maxLength 3 keeps the full
sentinel; the pure-punctuation input has the sentinel truncated to 3. -/
theorem c10_untitled_sentinel_witness :
    to_kebab_case "" 3 = "untitled" ∧
    to_kebab_case "???" 3 = String.mk (truncStepL ("untitled" : String).data 3) :=
  ⟨(c10_untitled_sentinel "" 3).1 (by decide),
   ((c10_untitled_sentinel "???" 3).2 (by decide) (by decide)).1⟩

/-- C1 (code bug): two distinct documents whose names normalize to the same
kebab base, each carrying an image at index 0 with the same JPEG payload,
receive the same output filename from the _extract_base64_image path: the
call site uses the module-level generate_image_filename without any
collision check against the shared attachment directory (the
collision-resolving ImageProcessor._generate_filename is never invoked
there), so the second write overwrites the first and the computed paths are
not pairwise distinct. -/
theorem c1_filename_collision :
    extract_base64_filename "Untitled" 0 "png"
        [0xff, 0xd8, 0xff, 0xe0, 0, 16, 0x4a, 0x46, 0x49, 0x46, 0, 1, 1, 0, 0, 1] =
      extract_base64_filename "untitled!" 0 "jpeg"
        [0xff, 0xd8, 0xff, 0xe0, 0, 16, 0x4a, 0x46, 0x49, 0x46, 0, 1, 1, 0, 0, 1] ∧
    extract_base64_filename "Untitled" 0 "png"
        [0xff, 0xd8, 0xff, 0xe0, 0, 16, 0x4a, 0x46, 0x49, 0x46, 0, 1, 1, 0, 0, 1] =
      "untitled-000.jpg" := by
  refine ⟨?_, ?_⟩ <;> decide

/-- C4 counterexample: a three-byte buffer beginning with FF D8 FF is shorter
than the sixteen-byte minimum of _detect_image_format, so it is not detected
as JPEG and the declared MIME type is kept rather than overridden. -/
theorem c4_counterexample :
    detect_image_format [0xff, 0xd8, 0xff] = none ∧
    extract_base64_mime "png" [0xff, 0xd8, 0xff] = "png" := by
  refine ⟨?_, ?_⟩ <;> decide

/-- C4 (amended): for every buffer of at least sixteen bytes whose first
three bytes are FF D8 FF, _detect_image_format returns 'jpg', and
_extract_base64_image uses 'jpg' as the format in place of every declared
data-URI image type. -/
theorem c4_jpeg_detection (d : List Nat) (declared : String)
    (h16 : 16 ≤ d.length) (h3 : d.take 3 = [0xff, 0xd8, 0xff]) :
    detect_image_format d = some "jpg" ∧ extract_base64_mime declared d = "jpg" := by
  obtain ⟨a, b, c, rest, rfl⟩ : ∃ a b c rest, d = a :: b :: c :: rest := by
    match d, h16 with
    | a :: b :: c :: rest, _ => exact ⟨a, b, c, rest, rfl⟩
  simp only [List.take] at h3
  obtain ⟨rfl, rfl, rfl⟩ : a = 0xff ∧ b = 0xd8 ∧ c = 0xff := by
    injection h3 with h3a h3'
    injection h3' with h3b h3''
    injection h3'' with h3c
    exact ⟨h3a, h3b, h3c⟩
  have hdet : detect_image_format (0xff :: 0xd8 :: 0xff :: rest) = some "jpg" := by
    unfold detect_image_format
    rw [if_neg (by simp at h16 ⊢; omega)]
    rw [if_pos (by simp [List.isPrefixOf, List.take])]
  refine ⟨hdet, ?_⟩
  unfold extract_base64_mime
  rw [hdet]

/-- C4 witness: a sixteen-byte JFIF header is detected as JPEG and overrides
a declared png type. -/
theorem c4_jpeg_detection_witness :
    detect_image_format
        [0xff, 0xd8, 0xff, 0xe0, 0, 16, 0x4a, 0x46, 0x49, 0x46, 0, 1, 1, 0, 0, 1] =
      some "jpg" ∧
    extract_base64_mime "png"
        [0xff, 0xd8, 0xff, 0xe0, 0, 16, 0x4a, 0x46, 0x49, 0x46, 0, 1, 1, 0, 0, 1] =
      "jpg" :=
  c4_jpeg_detection
    [0xff, 0xd8, 0xff, 0xe0, 0, 16, 0x4a, 0x46, 0x49, 0x46, 0, 1, 1, 0, 0, 1]
    "png" (by decide) (by decide)

/-- C5 counterexample: a complete twenty-four-byte ftyp box with brand heic
is below the thirty-two-byte minimum of _detect_heic_format, so
_fallback_save writes the raw bytes instead of returning None. -/
theorem c5_counterexample :
    containsSeq (asciiBytes "ftypheic")
        ([0, 0, 0, 24] ++ asciiBytes "ftypheic" ++ [0, 0, 0, 0] ++
          asciiBytes "mif1" ++ asciiBytes "heic") = true ∧
    fallback_save
        ([0, 0, 0, 24] ++ asciiBytes "ftypheic" ++ [0, 0, 0, 0] ++
          asciiBytes "mif1" ++ asciiBytes "heic") =
      some ([0, 0, 0, 24] ++ asciiBytes "ftypheic" ++ [0, 0, 0, 0] ++
          asciiBytes "mif1" ++ asciiBytes "heic") := by
  refine ⟨?_, ?_⟩ <;> decide

/-- C5 (amended): for every buffer of at least thirty-two bytes whose first
thirty-two bytes contain one of the HEIC/HEIF brand patterns, _fallback_save
returns None and never writes the raw bytes; every buffer the HEIC detector
rejects is written raw and its path returned.  (The detector only examines
the first thirty-two bytes and rejects shorter buffers.) -/
theorem c5_heic_never_raw (d : List Nat) :
    (32 ≤ d.length →
      heicPatterns.any (fun p => containsSeq p (d.take 32)) = true →
      fallback_save d = none)
    ∧ (detect_heic_format d = false → fallback_save d = some d) := by
  constructor
  · intro h32 hbrand
    have hdet : detect_heic_format d = true := by
      unfold detect_heic_format
      rw [if_neg (by omega)]
      simp [hbrand]
    unfold fallback_save
    rw [hdet]
    rfl
  · intro hdet
    unfold fallback_save
    rw [hdet]
    rfl

/-- C5 witness: a thirty-two-byte buffer with the heic brand is dropped by
the fallback; a three-byte non-HEIC buffer is written raw. -/
theorem c5_heic_never_raw_witness :
    fallback_save
        ([0, 0, 0, 32] ++ asciiBytes "ftypheic" ++ [0, 0, 0, 0] ++
          asciiBytes "mif1" ++ asciiBytes "heic" ++ [0, 0, 0, 0, 0, 0, 0, 0]) = none ∧
    fallback_save [1, 2, 3] = some [1, 2, 3] :=
  ⟨(c5_heic_never_raw
      ([0, 0, 0, 32] ++ asciiBytes "ftypheic" ++ [0, 0, 0, 0] ++
        asciiBytes "mif1" ++ asciiBytes "heic" ++ [0, 0, 0, 0, 0, 0, 0, 0])).1
    (by decide) (by decide),
   (c5_heic_never_raw [1, 2, 3]).2 (by decide)⟩

theorem validate_frontmatter_invariants (fm : PyFrontmatter) :
    (∃ s, (validate_frontmatter fm).slug = some s ∧ ∀ c ∈ s.data, isKebabChar c = true)
    ∧ (∃ ts, (validate_frontmatter fm).tags = some (.strs ts) ∧ ts.length ≤ 10)
    ∧ (∃ e, (validate_frontmatter fm).excerpt = some e ∧ e.length ≤ 200)
    ∧ (validate_frontmatter fm).category.isSome = true := by
  unfold validate_frontmatter
  refine ⟨⟨_, rfl, ?_⟩, ⟨_, rfl, ?_⟩, ⟨_, rfl, ?_⟩, rfl⟩
  · intro c hc
    exact List.of_mem_filter hc
  · split
    · exact List.length_take_le 10 _
    · rename_i hgt
      omega
  · split
    · rename_i hgt
      rw [String.length_append]
      have h1 : (String.mk (((fm.excerpt.getD ("Notes from " ++ fm.title)).data.take 197))).length ≤ 197 :=
        ((fm.excerpt.getD ("Notes from " ++ fm.title)).data).length_take_le 197
      have h2 : ("..." : String).length = 3 := rfl
      omega
    · rename_i hgt
      omega

theorem extract_basic_tags_length (content title : String) :
    (extract_basic_tags content title).length ≤ 10 := by
  simp only [extract_basic_tags]
  split
  · decide
  · refine le_trans (List.length_take_le 8 _) (by omega)

/-- C2 counterexample: on the rule-based path SmartFrontmatterGenerator does
not run _validate_frontmatter, and _generate_slug keeps every \w character;
the title "a_b" produces the slug "a_b", which contains an underscore, a
character outside [a-z0-9-]. -/
theorem c2_counterexample :
    (generate_frontmatter false false .raised "Sai Nimmagadda" "2024-01-01" ""
      { title := some "a_b", created := some "2020-01-01", folder := some "Notes" }).slug =
      some "a_b" ∧
    ('_' ∈ ("a_b" : String).data) ∧ isKebabChar '_' = false := by
  refine ⟨?_, ?_, ?_⟩ <;> decide

/-- C2 (amended): after the classifier-delegated path parses a metadata
object, _validate_frontmatter enforces all invariants: slug present and
restricted to [a-z0-9-], tags present as a string list of at most ten
entries, excerpt present and at most two hundred characters, category
present.  The rule-based path produces all required fields and a tags list
of at most ten strings, but applies no validation pass: its slug may contain
characters outside [a-z0-9-] and its excerpt is not capped at two hundred
characters. -/
theorem c2_frontmatter_invariants (g : GeneratedMeta) (author now content : String)
    (meta : ExistingMeta) (o : ClaudeOutcome) :
    ((∃ s, (generate_frontmatter true false (.parsed g) author now content meta).slug =
        some s ∧ ∀ c ∈ s.data, isKebabChar c = true)
      ∧ (∃ ts, (generate_frontmatter true false (.parsed g) author now content meta).tags =
          some (.strs ts) ∧ ts.length ≤ 10)
      ∧ (∃ e, (generate_frontmatter true false (.parsed g) author now content meta).excerpt =
          some e ∧ e.length ≤ 200)
      ∧ (generate_frontmatter true false (.parsed g) author now content meta).category.isSome
          = true)
    ∧ ((generate_frontmatter false false o author now content meta).slug.isSome = true
      ∧ (generate_frontmatter false false o author now content meta).category.isSome = true
      ∧ (generate_frontmatter false false o author now content meta).excerpt.isSome = true
      ∧ (∃ ts, (generate_frontmatter false false o author now content meta).tags =
          some (.strs ts) ∧ ts.length ≤ 10)) := by
  constructor
  · exact validate_frontmatter_invariants _
  · refine ⟨rfl, rfl, rfl, ⟨_, rfl, extract_basic_tags_length _ _⟩⟩

/-- C2 witness: the two paths at a concrete input. -/
theorem c2_frontmatter_invariants_witness :
    (∃ s, (generate_frontmatter true false
        (.parsed { slug := some "My_Slug!", category := some "Food",
                   tags := some (.scalar "coffee"), excerpt := some "An excerpt." })
        "Sai Nimmagadda" "2024-01-01" "Some note content."
        { title := some "T", created := some "2020-01-01", folder := some "Notes" }).slug =
      some s ∧ ∀ c ∈ s.data, isKebabChar c = true) ∧
    (∃ ts, (generate_frontmatter false false .raised "Sai Nimmagadda" "2024-01-01" ""
        { title := some "T", created := some "2020-01-01", folder := some "Notes" }).tags =
      some (.strs ts) ∧ ts.length ≤ 10) :=
  ⟨(c2_frontmatter_invariants
      { slug := some "My_Slug!", category := some "Food",
        tags := some (.scalar "coffee"), excerpt := some "An excerpt." }
      "Sai Nimmagadda" "2024-01-01" "Some note content."
      { title := some "T", created := some "2020-01-01", folder := some "Notes" }
      .raised).1.1,
   (c2_frontmatter_invariants
      { slug := some "My_Slug!", category := some "Food",
        tags := some (.scalar "coffee"), excerpt := some "An excerpt." }
      "Sai Nimmagadda" "2024-01-01" ""
      { title := some "T", created := some "2020-01-01", folder := some "Notes" }
      .raised).2.2.2.2⟩

/-- C3 counterexample: when the classifier response contains no JSON object,
_generate_with_claude returns the bare base record, so generate_frontmatter
hands back a record without slug, category, tags or excerpt, unlike the
rule-based shape the claim requires. -/
theorem c3_counterexample :
    (generate_frontmatter true false .noJson "Sai Nimmagadda" "2024-01-01" ""
      { title := some "T", created := some "2020-01-01", folder := some "Notes" }).slug =
      none ∧
    (generate_frontmatter true false .noJson "Sai Nimmagadda" "2024-01-01" ""
      { title := some "T", created := some "2020-01-01", folder := some "Notes" }).category =
      none ∧
    (generate_frontmatter true false .noJson "Sai Nimmagadda" "2024-01-01" ""
      { title := some "T", created := some "2020-01-01", folder := some "Notes" }).tags =
      none ∧
    (generate_frontmatter true false .noJson "Sai Nimmagadda" "2024-01-01" ""
      { title := some "T", created := some "2020-01-01", folder := some "Notes" }).excerpt =
      none := by
  exact ⟨rfl, rfl, rfl, rfl⟩

/-- C3 (amended): when the classifier call raises (or times out), no
exception reaches the caller and the result is identical to the rule-based
record; but when the response merely lacks a parsable JSON object (noJson or
badJson), generate_frontmatter returns the bare three-field base record
without slug, category, tags or excerpt. -/
theorem c3_failure_paths (author now content : String) (meta : ExistingMeta)
    (o : ClaudeOutcome) :
    generate_frontmatter true false .raised author now content meta =
      generate_frontmatter false false o author now content meta
    ∧ (generate_frontmatter true false .noJson author now content meta).slug = none
    ∧ (generate_frontmatter true false .noJson author now content meta).category = none
    ∧ (generate_frontmatter true false .noJson author now content meta).tags = none
    ∧ (generate_frontmatter true false .noJson author now content meta).excerpt = none
    ∧ (generate_frontmatter true false .badJson author now content meta).slug = none
    ∧ (generate_frontmatter true false .badJson author now content meta).category = none
    ∧ (generate_frontmatter true false .badJson author now content meta).tags = none
    ∧ (generate_frontmatter true false .badJson author now content meta).excerpt = none := by
  exact ⟨rfl, rfl, rfl, rfl, rfl, rfl, rfl, rfl, rfl⟩

theorem process_notes_split (proc : Note → Except String Unit) (inc : Bool)
    (notes : List Note) (st : ExportState) :
    (process_notes proc inc notes st).errors = st.errors ++ errorEntries proc inc notes
    ∧ (process_notes proc inc notes st).notesProcessed =
        st.notesProcessed + okCount proc inc notes := by
  induction notes generalizing st with
  | nil => exact ⟨by simp [process_notes, errorEntries], by simp [process_notes, okCount]⟩
  | cons n rest ih =>
    have hstep : process_notes proc inc (n :: rest) st =
        process_notes proc inc rest (processNoteStep proc inc st n) := rfl
    rw [hstep]
    obtain ⟨ihe, ihp⟩ := ih (processNoteStep proc inc st n)
    rw [ihe, ihp]
    by_cases hinc : should_include_note inc n
    · cases hproc : proc n with
      | ok u =>
        constructor
        · simp [processNoteStep, errorEntries, hinc, hproc]
        · simp [processNoteStep, okCount, hinc, hproc]
          omega
      | error e =>
        constructor
        · simp [processNoteStep, errorEntries, hinc, hproc]
        · simp [processNoteStep, okCount, hinc, hproc]
    · constructor
      · simp [processNoteStep, errorEntries, hinc]
      · simp [processNoteStep, okCount, hinc]

/-- C6: a record whose processing raises is caught inside the batch loop: its
display name and error text are appended to the error list between the error
entries of the records before and after it, and the records after it are
still processed (their successes are counted and their failures recorded);
the loop always reaches the end of the record list. -/
theorem c6_batch_continues (proc : Note → Except String Unit) (inc : Bool)
    (l1 l2 : List Note) (bad : Note) (st : ExportState) (e : String)
    (hinc : should_include_note inc bad = true) (herr : proc bad = .error e) :
    (process_notes proc inc (l1 ++ bad :: l2) st).errors =
      st.errors ++ errorEntries proc inc l1 ++
        [(bad.noteID.getD "unknown", bad.noteName.getD "Unknown", e)] ++
        errorEntries proc inc l2
    ∧ (process_notes proc inc (l1 ++ bad :: l2) st).notesProcessed =
        st.notesProcessed + okCount proc inc l1 + okCount proc inc l2 := by
  obtain ⟨he, hp⟩ := process_notes_split proc inc (l1 ++ bad :: l2) st
  rw [he, hp]
  constructor
  · unfold errorEntries
    rw [List.filterMap_append]
    rw [List.filterMap_cons]
    simp [hinc, herr, List.append_assoc]
  · unfold okCount
    rw [List.countP_append, List.countP_cons]
    simp [hinc, herr]
    omega

/-- C6 witness: a three-record batch whose middle record fails is fully
processed, with one error entry for the failing record. -/
theorem c6_batch_continues_witness :
    (process_notes
        (fun n => if n.noteName == some "bad" then Except.error "boom" else Except.ok ())
        false
        ([(⟨some "1", some "good1", some "<p>x</p>", some "Notes"⟩ : Note)] ++
          (⟨some "2", some "bad", some "<p>y</p>", some "Notes"⟩ : Note) ::
          [(⟨some "3", some "good2", some "<p>z</p>", some "Notes"⟩ : Note)])
        ⟨0, 0, 0, []⟩).errors =
      [] ++ errorEntries
          (fun n => if n.noteName == some "bad" then Except.error "boom" else Except.ok ())
          false [(⟨some "1", some "good1", some "<p>x</p>", some "Notes"⟩ : Note)] ++
        [("2", "bad", "boom")] ++
        errorEntries
          (fun n => if n.noteName == some "bad" then Except.error "boom" else Except.ok ())
          false [(⟨some "3", some "good2", some "<p>z</p>", some "Notes"⟩ : Note)]
    ∧ (process_notes
        (fun n => if n.noteName == some "bad" then Except.error "boom" else Except.ok ())
        false
        ([(⟨some "1", some "good1", some "<p>x</p>", some "Notes"⟩ : Note)] ++
          (⟨some "2", some "bad", some "<p>y</p>", some "Notes"⟩ : Note) ::
          [(⟨some "3", some "good2", some "<p>z</p>", some "Notes"⟩ : Note)])
        ⟨0, 0, 0, []⟩).notesProcessed =
      0 + okCount
          (fun n => if n.noteName == some "bad" then Except.error "boom" else Except.ok ())
          false [(⟨some "1", some "good1", some "<p>x</p>", some "Notes"⟩ : Note)] +
        okCount
          (fun n => if n.noteName == some "bad" then Except.error "boom" else Except.ok ())
          false [(⟨some "3", some "good2", some "<p>z</p>", some "Notes"⟩ : Note)] :=
  c6_batch_continues
    (fun n => if n.noteName == some "bad" then Except.error "boom" else Except.ok ())
    false
    [(⟨some "1", some "good1", some "<p>x</p>", some "Notes"⟩ : Note)]
    [(⟨some "3", some "good2", some "<p>z</p>", some "Notes"⟩ : Note)]
    (⟨some "2", some "bad", some "<p>y</p>", some "Notes"⟩ : Note)
    ⟨0, 0, 0, []⟩ "boom" (by decide) (by simp)

theorem splitNl_cons (c : Char) (cs : List Char) :
    splitNl (c :: cs) =
      if c == '\n' then [] :: splitNl cs
      else match splitNl cs with | h :: t => (c :: h) :: t | [] => [[c]] := rfl

theorem splitNl_ne_nil (l : List Char) : splitNl l ≠ [] := by
  induction l with
  | nil => simp [splitNl]
  | cons c cs ih =>
    unfold splitNl
    by_cases hc : c == '\n'
    · rw [if_pos hc]
      simp
    · rw [if_neg hc]
      cases h : splitNl cs with
      | nil => exact absurd h ih
      | cons a t => simp

theorem splitNl_head (l : List Char) :
    ∃ t, splitNl l = (l.takeWhile (fun c => !(c == '\n'))) :: t := by
  induction l with
  | nil => exact ⟨[], rfl⟩
  | cons c cs ih =>
    by_cases hc : c == '\n'
    · refine ⟨splitNl cs, ?_⟩
      rw [splitNl_cons, if_pos hc]
      have ht : (c :: cs).takeWhile (fun c => !(c == '\n')) = [] := by
        simp only [List.takeWhile_cons, hc]
        rfl
      rw [ht]
    · obtain ⟨t, ht⟩ := ih
      refine ⟨t, ?_⟩
      rw [splitNl_cons, if_neg hc, ht]
      simp [List.takeWhile_cons, hc]

theorem mem_splitNl_no_nl {l seg : List Char} (h : seg ∈ splitNl l) :
    '\n' ∉ seg := by
  induction l generalizing seg with
  | nil =>
    simp [splitNl] at h
    subst h
    simp
  | cons c cs ih =>
    rw [splitNl_cons] at h
    by_cases hc : c == '\n'
    · rw [if_pos hc] at h
      rcases List.mem_cons.mp h with rfl | h2
      · simp
      · exact ih h2
    · rw [if_neg hc] at h
      cases hs : splitNl cs with
      | nil => exact absurd hs (splitNl_ne_nil cs)
      | cons a t =>
        rw [hs] at h
        rcases List.mem_cons.mp h with rfl | h2
        · intro hmem
          rcases List.mem_cons.mp hmem with h3 | h3
          · rw [← h3] at hc
            simp at hc
          · exact ih (hs ▸ List.mem_cons_self a t) h3
        · exact ih (hs ▸ List.mem_cons_of_mem a h2)

theorem splitNl_append {a : List Char} (ha : '\n' ∉ a) (rest : List Char) :
    splitNl (a ++ '\n' :: rest) = a :: splitNl rest := by
  induction a with
  | nil =>
    show splitNl ('\n' :: rest) = [] :: splitNl rest
    rw [splitNl_cons, if_pos (by simp)]
  | cons c cs ih =>
    have hc : ¬(c == '\n') = true := by
      simp only [beq_iff_eq]
      intro h
      exact ha (h ▸ List.mem_cons_self c cs)
    show splitNl (c :: (cs ++ '\n' :: rest)) = (c :: cs) :: splitNl rest
    rw [splitNl_cons, if_neg hc, ih (fun hm => ha (List.mem_cons_of_mem c hm))]

theorem firstNonBlankData_cons_head {c : Char} (X : List Char)
    (hc : pyIsSpace c = false) :
    ∃ t, firstNonBlankData (c :: X) = some (c :: t) := by
  obtain ⟨tl, htl⟩ := splitNl_head (c :: X)
  have hc' : ¬(c == '\n') = true := by
    simp only [beq_iff_eq]
    intro h
    subst h
    simp [pyIsSpace] at hc
  have hfirst : (c :: X).takeWhile (fun x => !(x == '\n')) =
      c :: X.takeWhile (fun x => !(x == '\n')) := by
    simp [List.takeWhile_cons, hc']
  obtain ⟨t, ht⟩ := @pyStripWith_cons_head pyIsSpace c
    (X.takeWhile (fun x => !(x == '\n'))) hc
  refine ⟨t, ?_⟩
  unfold firstNonBlankData
  rw [htl, hfirst]
  have hps : pyStripL (c :: X.takeWhile (fun x => !(x == '\n'))) = c :: t := ht
  have hpred : (fun seg => !(pyStripL seg).isEmpty)
      (c :: X.takeWhile (fun x => !(x == '\n'))) = true := by
    simp only []
    rw [hps]
    rfl
  rw [@List.find?_cons_of_pos _ (fun seg => !(pyStripL seg).isEmpty)
    (c :: X.takeWhile (fun x => !(x == '\n'))) tl hpred]
  show some (pyStripL (c :: X.takeWhile (fun x => !(x == '\n')))) = some (c :: t)
  rw [hps]

theorem replaceFirstNonBlank_cons (new l : List Char) (rest : List (List Char)) :
    replaceFirstNonBlank new (l :: rest) =
      if (pyStripL l).isEmpty then l :: replaceFirstNonBlank new rest
      else new :: rest := rfl

theorem firstNonBlankData_join_replace (new : List Char) (c : Char)
    (hnew : new.head? = some c) (hc : pyIsSpace c = false) :
    ∀ ls : List (List Char), (∀ seg ∈ ls, '\n' ∉ seg) →
    (ls.find? (fun l => !(pyStripL l).isEmpty)).isSome = true →
    ∃ t, firstNonBlankData (joinNl (replaceFirstNonBlank new ls)) = some (c :: t) := by
  intro ls
  induction ls with
  | nil =>
    intro _ hfind
    simp at hfind
  | cons l rest ih =>
    intro hnl hfind
    by_cases hl : (pyStripL l).isEmpty
    · have hrep : replaceFirstNonBlank new (l :: rest) =
          l :: replaceFirstNonBlank new rest := by
        rw [replaceFirstNonBlank_cons, if_pos hl]
      rw [hrep]
      have hpredn : ¬ ((fun seg => !(pyStripL seg).isEmpty) l = true) := by
        simp only []
        simp [hl]
      have hfind' : (rest.find? (fun seg => !(pyStripL seg).isEmpty)).isSome = true := by
        rw [@List.find?_cons_of_neg _ (fun seg => !(pyStripL seg).isEmpty) l rest hpredn] at hfind
        exact hfind
      have hrestne : rest ≠ [] := by
        intro h
        subst h
        simp at hfind'
      have hrepne : replaceFirstNonBlank new rest ≠ [] := by
        cases rest with
        | nil => exact absurd rfl hrestne
        | cons a b =>
          unfold replaceFirstNonBlank
          split <;> simp
      have hjoin : joinNl (l :: replaceFirstNonBlank new rest) =
          l ++ '\n' :: joinNl (replaceFirstNonBlank new rest) := by
        cases hrep2 : replaceFirstNonBlank new rest with
        | nil => exact absurd hrep2 hrepne
        | cons a b => rfl
      rw [hjoin]
      obtain ⟨t, ht⟩ := ih (fun seg hs => hnl seg (List.mem_cons_of_mem l hs)) hfind'
      refine ⟨t, ?_⟩
      unfold firstNonBlankData
      rw [splitNl_append (hnl l (List.mem_cons_self l rest)) _]
      rw [@List.find?_cons_of_neg _ (fun seg => !(pyStripL seg).isEmpty) l _ hpredn]
      exact ht
    · have hrep : replaceFirstNonBlank new (l :: rest) = new :: rest := by
        rw [replaceFirstNonBlank_cons, if_neg hl]
      rw [hrep]
      obtain ⟨new', rfl⟩ : ∃ n', new = c :: n' := by
        cases new with
        | nil => simp at hnew
        | cons a b =>
          simp at hnew
          subst hnew
          exact ⟨b, rfl⟩
      cases rest with
      | nil => exact firstNonBlankData_cons_head new' hc
      | cons r rs =>
        have hjoin : joinNl ((c :: new') :: r :: rs) =
            c :: (new' ++ '\n' :: joinNl (r :: rs)) := rfl
        rw [hjoin]
        exact firstNonBlankData_cons_head _ hc

theorem ensure_heading_eq_of_find (content title : String) (l0 : List Char)
    (hcne : content ≠ "")
    (hfind : (splitNl content.data).find? (fun l => !(pyStripL l).isEmpty) = some l0) :
    ensure_heading content title =
      (if (pyStripL l0).head? = some '#' then content
       else if titleMatches (pyStripL l0) title then
         String.mk (joinNl (replaceFirstNonBlank ('#' :: ' ' :: title.data)
           (splitNl content.data)))
       else String.mk ('#' :: ' ' :: title.data ++ '\n' :: '\n' :: content.data)) := by
  unfold ensure_heading
  rw [if_neg hcne]
  rw [show ((splitNl content.data).find? (fun l => !(pyStripL l).isEmpty)).map pyStripL =
      some (pyStripL l0) by rw [hfind]; rfl]

/-- C7: for a document with at least one non-blank line, _ensure_heading
leaves a document whose first non-blank line already starts with '#'
unchanged; when that line textually matches the title it is replaced in
place by the '# title' heading line, otherwise a '# title' line is
prepended; and in every case the returned document's first non-blank line
starts with the '#' heading marker. -/
theorem c7_heading_invariant (content title : String) (fl : String)
    (hfl : firstNonBlank content = some fl) :
    (fl.data.head? = some '#' → ensure_heading content title = content)
    ∧ (fl.data.head? ≠ some '#' → titleMatches fl.data title = true →
        ensure_heading content title =
          String.mk (joinNl (replaceFirstNonBlank ('#' :: ' ' :: title.data)
            (splitNl content.data))))
    ∧ (fl.data.head? ≠ some '#' → titleMatches fl.data title = false →
        ensure_heading content title =
          String.mk ('#' :: ' ' :: title.data ++ '\n' :: '\n' :: content.data))
    ∧ (∃ h : String, firstNonBlank (ensure_heading content title) = some h ∧
        h.data.head? = some '#') := by
  obtain ⟨l0, hfind0, hfl0⟩ :
      ∃ l0, (splitNl content.data).find? (fun l => !(pyStripL l).isEmpty) = some l0 ∧
        String.mk (pyStripL l0) = fl := by
    unfold firstNonBlank firstNonBlankData at hfl
    rcases hx : (splitNl content.data).find? (fun l => !(pyStripL l).isEmpty) with _ | l0
    · rw [hx] at hfl
      simp at hfl
    · rw [hx] at hfl
      simp at hfl
      exact ⟨l0, rfl, by rw [← hfl]⟩
  have hfldata : fl.data = pyStripL l0 := by rw [← hfl0]
  have hcne : content ≠ "" := by
    intro h
    subst h
    have hnone : (splitNl ("" : String).data).find?
        (fun l => !(pyStripL l).isEmpty) = none := by decide
    rw [hnone] at hfind0
    exact Option.noConfusion hfind0
  have heq := ensure_heading_eq_of_find content title l0 hcne hfind0
  refine ⟨?_, ?_, ?_, ?_⟩
  · intro hhead
    rw [hfldata] at hhead
    rw [heq, if_pos hhead]
  · intro hhead hmatch
    rw [hfldata] at hhead hmatch
    rw [heq, if_neg hhead, if_pos hmatch]
  · intro hhead hmatch
    rw [hfldata] at hhead hmatch
    rw [heq, if_neg hhead, if_neg (by rw [hmatch]; exact Bool.false_ne_true)]
  · by_cases hhead : (pyStripL l0).head? = some '#'
    · rw [heq, if_pos hhead]
      refine ⟨String.mk (pyStripL l0), ?_, hhead⟩
      unfold firstNonBlank firstNonBlankData
      rw [hfind0]
      rfl
    · by_cases hmatch : titleMatches (pyStripL l0) title
      · rw [heq, if_neg hhead, if_pos hmatch]
        have hfindSome : ((splitNl content.data).find?
            (fun l => !(pyStripL l).isEmpty)).isSome = true := by
          rw [hfind0]
          rfl
        obtain ⟨t, ht⟩ := firstNonBlankData_join_replace ('#' :: ' ' :: title.data) '#'
          rfl (by decide) (splitNl content.data)
          (fun seg hs => mem_splitNl_no_nl hs) hfindSome
        refine ⟨String.mk ('#' :: t), ?_, rfl⟩
        unfold firstNonBlank
        rw [show (String.mk (joinNl (replaceFirstNonBlank ('#' :: ' ' :: title.data)
          (splitNl content.data)))).data = joinNl (replaceFirstNonBlank
          ('#' :: ' ' :: title.data) (splitNl content.data)) from rfl]
        rw [ht]
        rfl
      · rw [heq, if_neg hhead, if_neg hmatch]
        obtain ⟨t, ht⟩ := @firstNonBlankData_cons_head '#'
          (' ' :: (title.data ++ '\n' :: '\n' :: content.data)) (by decide)
        refine ⟨String.mk ('#' :: t), ?_, rfl⟩
        unfold firstNonBlank
        rw [show (String.mk ('#' :: ' ' :: title.data ++ '\n' :: '\n' ::
          content.data)).data = '#' :: (' ' :: (title.data ++ '\n' :: '\n' ::
          content.data)) from rfl]
        rw [ht]
        rfl

/-- C7 witness: a title-matching first line is promoted to a heading, and the
result's first non-blank line starts with the heading marker. -/
theorem c7_heading_invariant_witness :
    ensure_heading "Hello World\nbody text" "Hello World" =
      String.mk (joinNl (replaceFirstNonBlank
        ('#' :: ' ' :: ("Hello World" : String).data)
        (splitNl ("Hello World\nbody text" : String).data)))
    ∧ ∃ h : String,
        firstNonBlank (ensure_heading "Hello World\nbody text" "Hello World") = some h ∧
        h.data.head? = some '#' :=
  ⟨(c7_heading_invariant "Hello World\nbody text" "Hello World" "Hello World"
      (by decide)).2.1 (by decide) (by decide),
   (c7_heading_invariant "Hello World\nbody text" "Hello World" "Hello World"
      (by decide)).2.2.2⟩

theorem yaml_escape_no_nl {l : List Char} (h : l.contains '\n' = false) :
    (escapeBsQ l).contains '\n' = false := by
  have hmem : '\n' ∉ l := by
    intro hm
    have hc2 : l.contains '\n' = true := List.elem_iff.mpr hm
    rw [hc2] at h
    exact Bool.noConfusion h
  have hmem2 : '\n' ∉ escapeBsQ l := by
    intro hm
    unfold escapeBsQ at hm
    rcases List.mem_flatMap.mp hm with ⟨c, hcl, hpiece⟩
    by_cases h1 : c == '\\'
    · rw [if_pos h1] at hpiece
      simp at hpiece
    · rw [if_neg h1] at hpiece
      by_cases h2 : c == quoteChar
      · rw [if_pos h2] at hpiece
        rcases List.mem_cons.mp hpiece with h3 | h3
        · exact absurd h3 (by decide)
        · simp at h3
          exact absurd h3 (by decide)
      · rw [if_neg h2] at hpiece
        simp at hpiece
        subst hpiece
        exact hmem hcl
  cases hcon : (escapeBsQ l).contains '\n' with
  | false => rfl
  | true => exact absurd (List.elem_iff.mp hcon) hmem2

/-- C9 counterexample: the value "a:b" followed by a newline and "c" contains
the YAML-significant colon, yet _yaml_safe_string emits it as a |- block
literal rather than a double-quoted scalar, so the quoting clause of the
claim fails for values containing a newline. -/
theorem c9_counterexample :
    ("a:b\nc" : String).data.contains ':' = true ∧
    (':' ∈ specialCharsYaml) ∧
    yaml_safe_string "a:b\nc" = "|-\n  a:b\n  c" ∧
    (yaml_safe_string "a:b\nc").data.head? ≠ some quoteChar := by
  refine ⟨?_, ?_, ?_, ?_⟩ <;> decide

/-- C9 (amended): serialization emits the fields in the fixed order title,
slug, excerpt, date, category, tags, readingTime, featured, author between
the frontmatter delimiters; the slug is emitted unquoted, the date is
wrapped in single quotes, the excerpt becomes a |- block literal exactly
when longer than sixty characters, tags become a multi-line hyphen list (or
[] when empty), featured is the unquoted literal true/false, and every other
string value that contains a YAML-significant character from the set
:braces[]!>|*&%@backtick#? or equals a YAML reserved word or parses as a
number is emitted escaped and double-quoted - except that a value also
containing a newline is emitted as an indented |- block literal instead of
being quoted. -/
theorem c9_yaml_dialect (fm : FMDict) :
    dict_to_yaml_frontmatter fm = String.intercalate "\n"
      (["---"] ++ ["title: " ++ yaml_safe_string fm.title] ++
        ["slug: " ++ fm.slug] ++ excerptLines fm.excerpt ++
        ["date: " ++ sqStr ++ formatDateStr fm.date ++ sqStr] ++
        ["category: " ++ yaml_safe_string fm.category] ++ tagsLines fm.tags ++
        ["readingTime: " ++ yaml_safe_string (fm.readingTime.getD "5 min read")] ++
        ["featured: " ++ (if fm.featured.getD false then "true" else "false")] ++
        ["author: " ++ yaml_safe_string fm.author] ++ ["---", ""])
    ∧ (fm.excerpt.length > 60 → excerptLines fm.excerpt =
        "excerpt: |-" :: (splitNl fm.excerpt.data).map (fun ln => "  " ++ String.mk ln))
    ∧ (fm.excerpt.length ≤ 60 → excerptLines fm.excerpt =
        ["excerpt: " ++ yaml_safe_string fm.excerpt])
    ∧ (fm.tags = [] → tagsLines fm.tags = ["tags: []"])
    ∧ (fm.tags ≠ [] → tagsLines fm.tags =
        "tags:" :: fm.tags.map (fun t => "  - " ++ t))
    ∧ (∀ v : String,
        (v.data.any (fun c => specialCharsYaml.contains c) = true ∨
         yamlReserved.contains v = true ∨ pyFloatParsable v = true) →
        v.data.contains '\n' = false →
        yaml_safe_string v = String.mk (quoteChar :: (escapeBsQ v.data ++ [quoteChar]))) := by
  refine ⟨rfl, ?_, ?_, ?_, ?_, ?_⟩
  · intro h
    unfold excerptLines
    rw [if_pos h]
  · intro h
    unfold excerptLines
    rw [if_neg (by omega)]
  · intro h
    unfold tagsLines
    rw [if_pos (by simp [h])]
  · intro h
    unfold tagsLines
    rw [if_neg (by simpa using h)]
  · intro v htrig hnl
    have hvne : v ≠ "" := by
      rcases htrig with h | h | h
      · intro hv
        subst hv
        simp at h
      · intro hv
        subst hv
        exact absurd h (by decide)
      · intro hv
        subst hv
        exact absurd h (by decide)
    have hneed : yamlNeedsQuotes v = true := by
      unfold yamlNeedsQuotes
      rcases htrig with h | h | h <;>
        simp only [h, Bool.true_or, Bool.or_true]
    unfold yaml_safe_string
    rw [if_neg hvne]
    rw [if_neg (by simp [hneed])]
    rw [if_neg (by rw [yaml_escape_no_nl hnl]; exact fun hx => Bool.noConfusion hx)]
    rfl

/-- C9 witness: the quoting branch at a colon-bearing value, the reserved
word true, a numeric-looking value, and the block-literal excerpt branch at
a long excerpt. -/
theorem c9_yaml_dialect_witness :
    yaml_safe_string "x: y" = String.mk (quoteChar :: (escapeBsQ ("x: y" : String).data ++ [quoteChar]))
    ∧ yaml_safe_string "true" = String.mk (quoteChar :: (escapeBsQ ("true" : String).data ++ [quoteChar]))
    ∧ yaml_safe_string "3.14" = String.mk (quoteChar :: (escapeBsQ ("3.14" : String).data ++ [quoteChar]))
    ∧ excerptLines "This excerpt is quite long and definitely exceeds the sixty character limit." =
        "excerpt: |-" :: (splitNl ("This excerpt is quite long and definitely exceeds the sixty character limit." : String).data).map
          (fun ln => "  " ++ String.mk ln) :=
  ⟨(c9_yaml_dialect
      { title := "t", slug := "s", excerpt := "e", date := "d",
        category := "c", tags := [], author := "a" }).2.2.2.2.2 "x: y"
      (Or.inl (by decide)) (by decide),
   (c9_yaml_dialect
      { title := "t", slug := "s", excerpt := "e", date := "d",
        category := "c", tags := [], author := "a" }).2.2.2.2.2 "true"
      (Or.inr (Or.inl (by decide))) (by decide),
   (c9_yaml_dialect
      { title := "t", slug := "s", excerpt := "e", date := "d",
        category := "c", tags := [], author := "a" }).2.2.2.2.2 "3.14"
      (Or.inr (Or.inr (by decide))) (by decide),
   (c9_yaml_dialect
      { title := "t", slug := "s",
        excerpt := "This excerpt is quite long and definitely exceeds the sixty character limit.",
        date := "d", category := "c", tags := [], author := "a" }).2.1 (by decide)⟩
